import Mathlib

/-!
Verification of the capnp network generator core against its specification.

The development shallowly embeds the C++ sources of the repository
(id_generator.cpp, cpp_header_generator.cpp, type.cpp, schema.cpp,
capnp_file_generator.cpp, string_utils.cpp) as executable Lean functions
over lists of characters and natural numbers, and proves or refutes the
frozen claims about them.  Machine integers (uint64_t, int64_t) are
modelled as Nat / Int with explicit reduction modulo 2 ^ 64 where the C++
code relies on unsigned wrap-around.  Strings are modelled as List Char;
raw byte strings (the FNV hash input) as List Nat with each element a
byte value.
-/

namespace CapnpGen

/-! ## Character classification (C locale, ASCII), as used by the C++ code -/

def isSpaceC (c : Char) : Bool :=
  c.toNat = 32 ∨ (9 ≤ c.toNat ∧ c.toNat ≤ 13)

def isDigitC (c : Char) : Bool :=
  48 ≤ c.toNat ∧ c.toNat ≤ 57

def isAlphaC (c : Char) : Bool :=
  (65 ≤ c.toNat ∧ c.toNat ≤ 90) ∨ (97 ≤ c.toNat ∧ c.toNat ≤ 122)

def isAlnumC (c : Char) : Bool :=
  isAlphaC c || isDigitC c

def isXdigitC (c : Char) : Bool :=
  isDigitC c ∨ (97 ≤ c.toNat ∧ c.toNat ≤ 102) ∨ (65 ≤ c.toNat ∧ c.toNat ≤ 70)

def isUpperC (c : Char) : Bool :=
  65 ≤ c.toNat ∧ c.toNat ≤ 90

/-- Identifier continuation character of the DSL: alnum, underscore or colon. -/
def isIdentC (c : Char) : Bool :=
  isAlnumC c || c.toNat = 95 || c.toNat = 58

def toLowerC (c : Char) : Char :=
  if isUpperC c then Char.ofNat (c.toNat + 32) else c

def toUpperC (c : Char) : Char :=
  if 97 ≤ c.toNat ∧ c.toNat ≤ 122 then Char.ofNat (c.toNat - 32) else c

def lowerL (l : List Char) : List Char := l.map toLowerC

/-! ## Generic list helpers shared by the embedded functions -/

/-- Trim, as in schema.cpp and string_utils.cpp: drop whitespace on both ends. -/
def trimL (l : List Char) : List Char :=
  ((l.dropWhile isSpaceC).reverse.dropWhile isSpaceC).reverse

/-- Index of the first occurrence of a character, as std::string::find(char). -/
def findCharIdx : List Char → Char → Option Nat
  | [], _ => none
  | c :: t, ch => if c = ch then some 0 else (findCharIdx t ch).map (· + 1)

/-- Index of the first occurrence of a pattern, as std::string::find(string). -/
def findSub : List Char → List Char → Option Nat
  | l, pat =>
    if pat.isPrefixOf l then some 0
    else
      match l with
      | [] => none
      | _ :: t => (findSub t pat).map (· + 1)

/-! ## Id derivation engine: id_generator.cpp -/

/-- FNV-1a 64-bit offset basis, 0xcbf29ce484222325. -/
def FNV1A_OFFSET_BASIS : Nat := 14695981039346656037

/-- FNV-1a 64-bit prime, 0x100000001b3. -/
def FNV1A_PRIME : Nat := 1099511628211

/-- MSB flag 2 ^ 63, 0x8000000000000000. -/
def CAPNP_ID_MSB_FLAG : Nat := 9223372036854775808

/-- IdGenerator::compute_fnv1a_hash: fold FNV-1a over a byte sequence,
with the uint64_t multiplication modelled by an explicit reduction mod 2 ^ 64. -/
def compute_fnv1a_hash (data : List Nat) : Nat :=
  data.foldl (fun h b => ((h ^^^ b) * FNV1A_PRIME) % 2 ^ 64) FNV1A_OFFSET_BASIS

/-- The eight bytes extracted from parent_id in IdGenerator::derive_id,
exactly as the C++ loop does it: byte i is (parent_id >> (8 * (7 - i))) & 0xFF. -/
def parent_id_bytes (parent_id : Nat) : List Nat :=
  (List.range 8).map (fun i => (parent_id >>> (8 * (7 - i))) &&& 255)

/-- IdGenerator::derive_id: hash the big-endian parent id bytes followed by the
name bytes, then force the most significant bit. -/
def derive_id (parent_id : Nat) (name : List Nat) : Nat :=
  compute_fnv1a_hash (parent_id_bytes parent_id ++ name) ||| CAPNP_ID_MSB_FLAG

/-- The 8-byte big-endian encoding written the way the specification words it
(most significant byte first, each byte a base-256 digit).  This is the
spec-side definition used to compare against the code-side parent_id_bytes. -/
def big_endian_bytes_spec (n : Nat) : List Nat :=
  [n / 2 ^ 56 % 256, n / 2 ^ 48 % 256, n / 2 ^ 40 % 256, n / 2 ^ 32 % 256,
   n / 2 ^ 24 % 256, n / 2 ^ 16 % 256, n / 2 ^ 8 % 256, n % 256]

/-- Lowercase hex digit character for a nibble value. -/
def hexDigitC (d : Nat) : Char :=
  if d < 10 then Char.ofNat (48 + d) else Char.ofNat (87 + d)

/-- Numeric value of a hex digit character, as strtoull with base 16 reads it. -/
def hexDigitVal (c : Char) : Nat :=
  if 48 ≤ c.toNat ∧ c.toNat ≤ 57 then c.toNat - 48
  else if 97 ≤ c.toNat ∧ c.toNat ≤ 102 then c.toNat - 87
  else if 65 ≤ c.toNat ∧ c.toNat ≤ 70 then c.toNat - 55
  else 0

/-- Value of a hex digit string, most significant digit first. -/
def hexVal (l : List Char) : Nat :=
  l.foldl (fun a c => 16 * a + hexDigitVal c) 0

/-- Value of a decimal digit string. -/
def decVal (l : List Char) : Nat :=
  l.foldl (fun a c => 10 * a + (c.toNat - 48)) 0

/-- Nibbles of n, least significant first, k of them. -/
def nibblesLSB : Nat → Nat → List Nat
  | 0, _ => []
  | k + 1, n => n % 16 :: nibblesLSB k (n / 16)

/-- The sixteen hex digit characters of a uint64_t value, most significant
first; std::hex with setw(16)/setfill zero-pads to exactly 16 digits. -/
def hexDigits16 (n : Nat) : List Char :=
  ((nibblesLSB 16 n).reverse).map hexDigitC

/-- IdGenerator::format_id_as_hex: at-sign, 0x, then 16 lowercase hex digits. -/
def format_id_as_hex (id : Nat) : List Char :=
  '@' :: '0' :: 'x' :: hexDigits16 id

/-- One attempt of the regex @0x([0-9a-fA-F]\x7b1,16\x7d)\s*; at the start of l.
ECMAScript semantics: the digit group is greedy; backtracking to fewer than
the maximal run cannot succeed because the following character would be a hex
digit, which matches neither \s nor the semicolon, so only the maximal run
(capped at 16) is tried, and a run longer than 16 fails at this position. -/
def regexIdMatchAt (l : List Char) : Option Nat :=
  match l with
  | '@' :: '0' :: 'x' :: rest =>
    let run := rest.takeWhile isXdigitC
    if run.length = 0 then none
    else if 16 < run.length then none
    else
      let after := (rest.drop run.length).dropWhile isSpaceC
      match after with
      | ';' :: _ => some (hexVal run)
      | _ => none
  | _ => none

/-- std::regex_search: try the pattern at every position, leftmost first.
The pattern cannot match the empty string, so the empty case returns none. -/
def regexIdSearch : List Char → Option Nat
  | [] => none
  | c :: t =>
    match regexIdMatchAt (c :: t) with
    | some v => some v
    | none => regexIdSearch t

/-- IdGenerator::extract_file_id_from_capnp.  The file argument is none when
the file does not exist (or cannot be opened); otherwise it carries the file
content.  Only the first line is inspected; 0 is returned on any failure. -/
def extract_file_id_from_capnp (file : Option (List Char)) : Nat :=
  match file with
  | none => 0
  | some content =>
    let firstLine := content.takeWhile (fun c => c ≠ '\n')
    match regexIdSearch firstLine with
    | some v => v
    | none => 0

/-- CapnpFileGenerator::_initialize_file_id.  The fresh argument models the
value that IdGenerator::generate_random_id would return on this run. -/
def initialize_file_id (file : Option (List Char)) (fresh : Nat) : Nat :=
  let existing := extract_file_id_from_capnp file
  if existing ≠ 0 then existing else fresh

/-- Lowercase hexadecimal digit predicate (0-9 or a-f). -/
def isLowerHexC (c : Char) : Bool :=
  isDigitC c || (97 ≤ c.toNat ∧ c.toNat ≤ 102)

/-- Value of a nibble list, least significant digit first. -/
def valLSB (l : List Nat) : Nat :=
  l.foldr (fun d acc => d + 16 * acc) 0

/-! ## Data model: mappings.hpp, schema.hpp (Message, EnumValue, EnumDecl) -/

/-- DslType, the enum of mappings.hpp. -/
inductive DslType where
  | Int8 | Int16 | Int32 | Int64
  | Uint8 | Uint16 | Uint32 | Uint64
  | Float32 | Float64
  | Bool | String | Bytes
  | List | Map | Enum
  | AnyPointer | Void | Custom
deriving DecidableEq, Repr

/-- string_to_dsl_map of mappings.hpp: DSL keyword to DslType.  Note the map
also contains the entries list, map, enum and anypointer exactly as in the
source; int is an alias for Int32. -/
def string_to_dsl_map (s : List Char) : Option DslType :=
  if s = "int".toList then some .Int32
  else if s = "int8".toList then some .Int8
  else if s = "int16".toList then some .Int16
  else if s = "int32".toList then some .Int32
  else if s = "int64".toList then some .Int64
  else if s = "uint8".toList then some .Uint8
  else if s = "uint16".toList then some .Uint16
  else if s = "uint32".toList then some .Uint32
  else if s = "uint64".toList then some .Uint64
  else if s = "float32".toList then some .Float32
  else if s = "float64".toList then some .Float64
  else if s = "bool".toList then some .Bool
  else if s = "string".toList then some .String
  else if s = "bytes".toList then some .Bytes
  else if s = "list".toList then some .List
  else if s = "map".toList then some .Map
  else if s = "enum".toList then some .Enum
  else if s = "anypointer".toList then some .AnyPointer
  else if s = "void".toList then some .Void
  else none

/-- dsl_to_capnp_map of mappings.hpp. -/
def dsl_to_capnp_map : DslType → List Char
  | .Int8 => "Int8".toList
  | .Int16 => "Int16".toList
  | .Int32 => "Int32".toList
  | .Int64 => "Int64".toList
  | .Uint8 => "UInt8".toList
  | .Uint16 => "UInt16".toList
  | .Uint32 => "UInt32".toList
  | .Uint64 => "UInt64".toList
  | .Float32 => "Float32".toList
  | .Float64 => "Float64".toList
  | .Bool => "Bool".toList
  | .String => "Text".toList
  | .Bytes => "Data".toList
  | .List => "List".toList
  | .Map => "Map".toList
  | .Enum => "Enum".toList
  | .AnyPointer => "AnyPointer".toList
  | .Void => "Void".toList
  | .Custom => "Void".toList

/-- dsl_to_cpp_map of mappings.hpp. -/
def dsl_to_cpp_map : DslType → List Char
  | .Int8 => "int8_t".toList
  | .Int16 => "int16_t".toList
  | .Int32 => "int32_t".toList
  | .Int64 => "int64_t".toList
  | .Uint8 => "uint8_t".toList
  | .Uint16 => "uint16_t".toList
  | .Uint32 => "uint32_t".toList
  | .Uint64 => "uint64_t".toList
  | .Float32 => "float".toList
  | .Float64 => "double".toList
  | .Bool => "bool".toList
  | .String => "std::string".toList
  | .Bytes => "std::vector<uint8_t>".toList
  | .List => "std::vector".toList
  | .Map => "std::unordered_map".toList
  | .Enum => "enum".toList
  | .AnyPointer => "void*".toList
  | .Void => "void".toList
  | .Custom => "void".toList

/-- The recursive Type of type.hpp, as a sum over Type::Kind.  The parser
never produces the Enum kind, but it exists in the source and is consulted
by CapnpFileGenerator::_is_message_type_field. -/
inductive CType where
  | prim (p : DslType)
  | custom (name : List Char)
  | enumRef (name : List Char)
  | listOf (elem : CType)
  | mapOf (key value : CType)
deriving DecidableEq, Repr

/-- A parsed field: a Type together with its field name (Type::_fieldName). -/
structure PType where
  ty : CType
  fieldName : List Char
deriving DecidableEq, Repr

/-- Type::get_capnp_type. -/
def get_capnp_type : CType → List Char
  | .prim p => dsl_to_capnp_map p
  | .custom n => n
  | .enumRef n => n
  | .listOf e => "List(".toList ++ get_capnp_type e ++ ")".toList
  | .mapOf k v => "Map(".toList ++ get_capnp_type k ++ ", ".toList ++ get_capnp_type v ++ ")".toList

/-- Type::get_cpp_type. -/
def get_cpp_type : CType → List Char
  | .prim p => dsl_to_cpp_map p
  | .custom n => n
  | .enumRef n => n
  | .listOf e => "std::vector<".toList ++ get_cpp_type e ++ ">".toList
  | .mapOf k v =>
    "std::unordered_map<".toList ++ get_cpp_type k ++ ", ".toList ++ get_cpp_type v ++ ">".toList

/-- Message of schema.cpp: id, name, optional parent (empty list if none),
ordered field list. -/
structure Msg where
  id : Nat
  name : List Char
  parent : List Char
  fields : List PType
deriving DecidableEq, Repr

/-- EnumValue of schema.cpp. -/
structure EnumValue where
  name : List Char
  value : Int
deriving DecidableEq, Repr

/-- EnumDecl of schema.cpp; capnpId is 0 when no explicit id was given. -/
structure EnumDecl where
  name : List Char
  values : List EnumValue
  capnpId : Nat
deriving DecidableEq, Repr

/-- Lookup in a name-keyed map (std::unordered_map keyed by name). -/
def assocLookup {α : Type} : List (List Char × α) → List Char → Option α
  | [], _ => none
  | (k, v) :: t, key => if k = key then some v else assocLookup t key

/-- Insert-or-replace in a name-keyed map (operator[] followed by assignment). -/
def assocInsert {α : Type} : List (List Char × α) → List Char → α → List (List Char × α)
  | [], key, v => [(key, v)]
  | (k, w) :: t, key, v =>
    if k = key then (k, v) :: t else (k, w) :: assocInsert t key v

/-- UTF-8 code units of an ASCII name, as fed to the hash by the generators. -/
def strBytes (l : List Char) : List Nat := l.map Char.toNat

/-- The enum id selection of CapnpFileGenerator::_write_enum: an explicit
nonzero id gets the MSB forced; a zero (absent) id is replaced by an id
derived from the file id and the enum name. -/
def write_enum_id (fileId : Nat) (e : EnumDecl) : Nat :=
  if e.capnpId ≠ 0 then e.capnpId ||| CAPNP_ID_MSB_FLAG
  else derive_id fileId (strBytes e.name)

/-! ## Regeneration merger: cpp_header_generator.cpp -/

/-- The suffix of content at which the end-marker search starts: skip past the
start marker occurrence at p, then past the remainder of that line.  This is
exactly the start_pos adjustment in extract_between_markers. -/
def markerTail (content startMarker : List Char) (p : Nat) : List Char :=
  let rest := content.drop (p + startMarker.length)
  match findCharIdx rest '\n' with
  | some j => rest.drop (j + 1)
  | none => rest

/-- extract_between_markers of cpp_header_generator.cpp: empty when either
marker is missing, otherwise the verbatim text from the line after the start
marker up to the first following occurrence of the end marker. -/
def extract_between_markers (content startMarker endMarker : List Char) : List Char :=
  match findSub content startMarker with
  | none => []
  | some p =>
    let tail := markerTail content startMarker p
    match findSub tail endMarker with
    | none => []
    | some q => tail.take q

/-- CppHeaderGenerator::_read_user_section: none models a missing or
unreadable file; every failure degrades to the empty slot text. -/
def read_user_section (file : Option (List Char)) (startMarker endMarker : List Char) :
    List Char :=
  match file with
  | none => []
  | some content => extract_between_markers content startMarker endMarker

def USER_INCLUDES_START : List Char := "// USER_INCLUDES_START".toList
def USER_INCLUDES_END : List Char := "// USER_INCLUDES_END".toList
def USER_METHODS_START : List Char := "// USER_METHODS_START".toList
def USER_METHODS_END : List Char := "// USER_METHODS_END".toList
def USER_PROTECTED_START : List Char := "// USER_PROTECTED_START".toList
def USER_PROTECTED_END : List Char := "// USER_PROTECTED_END".toList
def USER_PRIVATE_START : List Char := "// USER_PRIVATE_START".toList
def USER_PRIVATE_END : List Char := "// USER_PRIVATE_END".toList

/-- Shorthand used by the artifact renderers. -/
def sL (s : String) : List Char := s.toList

/-- Decimal digit characters of n, most significant first (fuelled helper). -/
def natDecDigits : Nat → Nat → List Char
  | 0, _ => []
  | fuel + 1, n =>
    if n < 10 then [Char.ofNat (48 + n)]
    else natDecDigits fuel (n / 10) ++ [Char.ofNat (48 + n % 10)]

/-- Decimal rendering of a natural number, as operator<< prints it. -/
def natToDec (n : Nat) : List Char := natDecDigits (n + 1) n

/-- CppHeaderGenerator::_generate_field_declarations. -/
def generate_field_declarations (fields : List PType) : List Char :=
  (fields.map (fun f =>
    sL "    /// @brief Field: " ++ f.fieldName ++ sL "\n" ++
    sL "    /// @details Type: " ++ get_cpp_type f.ty ++ sL "\n" ++
    sL "    " ++ get_cpp_type f.ty ++ sL " " ++ f.fieldName ++ sL ";\n\n")).flatten

/-- CppHeaderGenerator::_get_parent_class_name. -/
def get_parent_class_name (m : Msg) : List Char :=
  if m.parent = [] then sL "curious::dsl::capnpgen::MessageBase" else m.parent

/-- CppHeaderGenerator::_generate_header_content: the full rendered header,
with the four user slots spliced between their marker pairs.  The namespace
argument is Schema::namespace_name ([] when absent). -/
def generate_header_content (ns : List Char) (m : Msg)
    (user_includes user_methods user_protected user_private : List Char) : List Char :=
  let guard_name := m.name.map toUpperC ++ sL "_HPP"
  let nsEff := if ns = [] then sL "curious::message" else ns
  sL "#pragma once\n\n" ++
  sL "#ifndef " ++ guard_name ++ sL "\n" ++
  sL "#define " ++ guard_name ++ sL "\n\n" ++
  sL "#include <cstdint>\n" ++
  sL "#include <string>\n" ++
  sL "#include <vector>\n" ++
  sL "#include <unordered_map>\n" ++
  sL "#include <memory>\n\n" ++
  sL "#include \"message_base.hpp\"\n\n" ++
  sL "// Forward declarations for Cap\x27n Proto\n" ++
  sL "namespace capnp \x7b\n" ++
  sL "    class MessageBuilder;\n" ++
  sL "    class MessageReader;\n" ++
  sL "\x7d\n\n" ++
  USER_INCLUDES_START ++ sL "\n" ++
  user_includes ++
  USER_INCLUDES_END ++ sL "\n\n" ++
  sL "namespace " ++ nsEff ++ sL "\n\x7b\n\n" ++
  (if m.parent ≠ [] then
    sL "// Forward declaration\n" ++ sL "class " ++ m.parent ++ sL ";\n\n"
  else []) ++
  sL "/// @brief Auto-generated message class for " ++ m.name ++ sL ".\n" ++
  sL "/// @details Message ID: " ++ natToDec m.id ++ sL "\n" ++
  (if m.parent ≠ [] then
    sL "///          Inherits from: " ++ m.parent ++ sL "\n"
  else []) ++
  sL "class " ++ m.name ++ sL " : public " ++ get_parent_class_name m ++ sL "\n" ++
  sL "\x7b\n" ++
  sL "public:\n" ++
  sL "    // ---- Constructors and Destructor ----\n\n" ++
  sL "    /// @brief Default constructor.\n" ++
  sL "    " ++ m.name ++ sL "();\n\n" ++
  sL "    /// @brief Copy constructor.\n" ++
  sL "    " ++ m.name ++ sL "(const " ++ m.name ++ sL "& other);\n\n" ++
  sL "    /// @brief Move constructor.\n" ++
  sL "    " ++ m.name ++ sL "(" ++ m.name ++ sL "&& other) noexcept;\n\n" ++
  sL "    /// @brief Copy assignment operator.\n" ++
  sL "    " ++ m.name ++ sL "& operator=(const " ++ m.name ++ sL "& other);\n\n" ++
  sL "    /// @brief Move assignment operator.\n" ++
  sL "    " ++ m.name ++ sL "& operator=(" ++ m.name ++ sL "&& other) noexcept;\n\n" ++
  sL "    /// @brief Destructor.\n" ++
  sL "    virtual ~" ++ m.name ++ sL "();\n\n" ++
  sL "    // ---- MessageBase Interface ----\n\n" ++
  sL "    /// @brief Get the message type identifier.\n" ++
  sL "    /// @return The message type ID.\n" ++
  sL "    std::uint64_t get_message_id() const override;\n\n" ++
  sL "    /// @brief Get the message type name.\n" ++
  sL "    /// @return The message type name as a string.\n" ++
  sL "    std::string get_message_name() const override;\n\n" ++
  sL "    /// @brief Serialize this message to a byte vector.\n" ++
  sL "    /// @return A vector containing the serialized message.\n" ++
  sL "    std::vector<std::uint8_t> serialize() const override;\n\n" ++
  sL "    /// @brief Deserialize from a byte vector.\n" ++
  sL "    /// @param data The serialized data.\n" ++
  sL "    /// @return True if deserialization succeeded, false otherwise.\n" ++
  sL "    bool deserialize(const std::vector<std::uint8_t>& data) override;\n\n" ++
  sL "    /// @brief Deserialize from a byte buffer.\n" ++
  sL "    /// @param data Pointer to the data buffer.\n" ++
  sL "    /// @param size Size of the data buffer in bytes.\n" ++
  sL "    /// @return True if deserialization succeeded, false otherwise.\n" ++
  sL "    bool deserialize(const std::uint8_t* data, std::size_t size) override;\n\n" ++
  sL "    // ---- Cap\x27n Proto Conversion Methods ----\n\n" ++
  sL "    /// @brief Convert this object to a Cap\x27n Proto message builder.\n" ++
  sL "    /// @param message_builder The Cap\x27n Proto message builder to populate.\n" ++
  sL "    void to_capnp(::capnp::MessageBuilder& message_builder) const;\n\n" ++
  sL "    /// @brief Populate this object from a Cap\x27n Proto message reader.\n" ++
  sL "    /// @param message_reader The Cap\x27n Proto message reader to read from.\n" ++
  sL "    void from_capnp(::capnp::MessageReader& message_reader);\n\n" ++
  sL "    // ---- Generated Fields ----\n\n" ++
  generate_field_declarations m.fields ++
  sL "    " ++ USER_METHODS_START ++ sL "\n" ++
  user_methods ++
  sL "    " ++ USER_METHODS_END ++ sL "\n\n" ++
  sL "protected:\n" ++
  sL "    " ++ USER_PROTECTED_START ++ sL "\n" ++
  user_protected ++
  sL "    " ++ USER_PROTECTED_END ++ sL "\n\n" ++
  sL "private:\n" ++
  sL "    /// @brief Copy fields from another instance.\n" ++
  sL "    /// @param other The instance to copy from.\n" ++
  sL "    void _copy_from(const " ++ m.name ++ sL "& other);\n\n" ++
  sL "    " ++ USER_PRIVATE_START ++ sL "\n" ++
  user_private ++
  sL "    " ++ USER_PRIVATE_END ++ sL "\n" ++
  sL "\x7d;\n\n" ++
  sL "\x7d // namespace " ++ nsEff ++ sL "\n\n" ++
  sL "#endif // " ++ guard_name ++ sL "\n"

/-! ## Type parser: type.cpp (Type::TypeParser) -/

/-- TypeParser::_read_identifier: skip whitespace, read a nonempty run of
identifier characters, then skip trailing whitespace.  Fails on empty. -/
def readIdent (l : List Char) : Option (List Char × List Char) :=
  let l1 := l.dropWhile isSpaceC
  let id := l1.takeWhile isIdentC
  if id = [] then none
  else some (id, (l1.drop id.length).dropWhile isSpaceC)

/-- TypeParser::_expect_char: skip whitespace, require the given character. -/
def expectCharP (c : Char) (l : List Char) : Option (List Char) :=
  match l.dropWhile isSpaceC with
  | c2 :: t => if c2 = c then some t else none
  | [] => none

/-- TypeParser::_is_list_keyword (argument already lowercased). -/
def is_list_keyword (s : List Char) : Bool :=
  s = "list".toList || s = "vector".toList || s = "std::vector".toList

/-- TypeParser::_is_map_keyword (argument already lowercased). -/
def is_map_keyword (s : List Char) : Bool :=
  s = "map".toList || s = "unordered_map".toList ||
  s = "std::map".toList || s = "std::unordered_map".toList

/-- TypeParser::_try_resolve_primitive combined with the custom fallback of
_parse_type: exact table lookup first, then case-insensitive lookup, then a
Custom reference (never an error). -/
def resolve_bare (id : List Char) : CType :=
  match string_to_dsl_map id with
  | some p => .prim p
  | none =>
    match string_to_dsl_map (lowerL id) with
    | some p => .prim p
    | none => .custom id

/-- TypeParser::_parse_type, with explicit fuel standing in for the call
stack.  Each recursive call strictly consumes input, so any fuel of at least
the input length behaves like the C++ recursion. -/
def parseTypeF : Nat → List Char → Option (CType × List Char)
  | 0, _ => none
  | fuel + 1, l =>
    match readIdent l with
    | none => none
    | some (id, r0) =>
      let lower := lowerL id
      if is_list_keyword lower then
        match expectCharP '<' r0 with
        | none => none
        | some r1 =>
          match parseTypeF fuel r1 with
          | none => none
          | some (elemT, r2) =>
            match expectCharP '>' r2 with
            | none => none
            | some r3 => some (.listOf elemT, r3)
      else if is_map_keyword lower then
        match expectCharP '<' r0 with
        | none => none
        | some r1 =>
          match parseTypeF fuel r1 with
          | none => none
          | some (keyT, r2) =>
            match expectCharP ',' r2 with
            | none => none
            | some r3 =>
              match parseTypeF fuel r3 with
              | none => none
              | some (valT, r4) =>
                match expectCharP '>' r4 with
                | none => none
                | some r5 => some (.mapOf keyT valT, r5)
      else some (resolve_bare id, r0)

/-- Type::parse_from_line (TypeParser::parse): parse the type expression,
then the field name; the optional trailing semicolon is consumed and does not
affect the result.  none models the thrown runtime_error. -/
def parse_from_line (l : List Char) : Option PType :=
  match parseTypeF (l.length + 1) l with
  | none => none
  | some (t, r) =>
    match readIdent r with
    | none => none
    | some (nm, _) => some ⟨t, nm⟩

/-- Canonical DSL keyword of each primitive DslType appearing in the
primitive table; none for the non-primitive codes. -/
def primKeyword : DslType → Option (List Char)
  | .Int8 => some ("int8".toList)
  | .Int16 => some ("int16".toList)
  | .Int32 => some ("int32".toList)
  | .Int64 => some ("int64".toList)
  | .Uint8 => some ("uint8".toList)
  | .Uint16 => some ("uint16".toList)
  | .Uint32 => some ("uint32".toList)
  | .Uint64 => some ("uint64".toList)
  | .Float32 => some ("float32".toList)
  | .Float64 => some ("float64".toList)
  | .Bool => some ("bool".toList)
  | .String => some ("string".toList)
  | .Bytes => some ("bytes".toList)
  | .AnyPointer => some ("anypointer".toList)
  | .Void => some ("void".toList)
  | _ => none

/-- Valid identifier of the DSL grammar: nonempty, identifier characters. -/
def validIdentL (l : List Char) : Prop :=
  l ≠ [] ∧ ∀ c ∈ l, isIdentC c = true

instance : DecidablePred validIdentL := fun l =>
  inferInstanceAs (Decidable (l ≠ [] ∧ ∀ c ∈ l, isIdentC c = true))

/-- Validity of a type tree with respect to the grammar: primitives are the
table keywords, custom names are identifiers that resolve to no primitive and
are not container keywords, and the Enum kind never arises from parsing. -/
def validTy : CType → Prop
  | .prim p => (primKeyword p).isSome
  | .custom n => validIdentL n ∧ string_to_dsl_map n = none
      ∧ string_to_dsl_map (lowerL n) = none
      ∧ is_list_keyword (lowerL n) = false ∧ is_map_keyword (lowerL n) = false
  | .enumRef _ => False
  | .listOf t => validTy t
  | .mapOf k v => validTy k ∧ validTy v

/-- Canonical DSL text of a type expression, per the grammar of the spec. -/
def renderTy : CType → List Char
  | .prim p => (primKeyword p).getD []
  | .custom n => n
  | .enumRef n => n
  | .listOf t => "list<".toList ++ renderTy t ++ ">".toList
  | .mapOf k v => "map<".toList ++ renderTy k ++ ",".toList ++ renderTy v ++ ">".toList

/-- Nesting depth of a type expression, a lower bound for sufficient fuel. -/
def depthTy : CType → Nat
  | .prim _ => 1
  | .custom _ => 1
  | .enumRef _ => 1
  | .listOf t => depthTy t + 1
  | .mapOf k v => max (depthTy k) (depthTy v) + 1

/-- The head of the list, if any, fails the predicate. -/
def headNot (p : Char → Bool) : List Char → Prop
  | [] => True
  | c :: _ => p c = false

/-! ## Comment stripping: schema.cpp StripComments and
string_utils.cpp strip_comments -/

/-- The five states shared by both comment-stripping automata. -/
inductive CommentState where
  | N | SLASH | LINE | BLOCK | STAR
deriving DecidableEq, Repr

/-- One step of schema.cpp StripComments.  The placeholder pushed on seeing a
slash and possibly overwritten by out.back() assignments is modelled by
emitting the resolved characters when the SLASH state resolves. -/
def stripStep : CommentState → Char → CommentState × List Char
  | .N, c => if c = '/' then (.SLASH, []) else (.N, [c])
  | .SLASH, c =>
    if c = '/' then (.LINE, [' '])
    else if c = '*' then (.BLOCK, [' '])
    else (.N, ['/', c])
  | .LINE, c => if c = '\n' then (.N, ['\n']) else (.LINE, [])
  | .BLOCK, c => if c = '*' then (.STAR, []) else (.BLOCK, [])
  | .STAR, c =>
    if c = '/' then (.N, [])
    else if c = '*' then (.STAR, [])
    else (.BLOCK, [])

/-- One step of string_utils::strip_comments, which additionally recognizes
hash-prefixed line comments in the Normal state. -/
def stripUtilStep : CommentState → Char → CommentState × List Char
  | .N, c =>
    if c = '/' then (.SLASH, [])
    else if c = '#' then (.LINE, [])
    else (.N, [c])
  | st, c => stripStep st c

/-- The unresolved slash placeholder remaining at end of input. -/
def stripFlush : CommentState → List Char
  | .SLASH => [' ']
  | _ => []

/-- Run a comment automaton over the input. -/
def runComments (step : CommentState → Char → CommentState × List Char) :
    CommentState → List Char → List Char
  | st, [] => stripFlush st
  | st, c :: t => (step st c).2 ++ runComments step (step st c).1 t

/-- schema.cpp StripComments, the preprocessing Schema::parse applies. -/
def StripComments (l : List Char) : List Char := runComments stripStep .N l

/-- string_utils::strip_comments. -/
def strip_comments_util (l : List Char) : List Char := runComments stripUtilStep .N l

/-! ## The schema parser: schema.cpp -/

def lbrace : Char := Char.ofNat 123
def rbrace : Char := Char.ofNat 125

/-- Schema::Lexer::is_sym. -/
def lexIsSym (c : Char) : Bool :=
  c = lbrace || c = rbrace || c = '(' || c = ')' || c = '/' || c = '*' || c = ';' ||
  c = ',' || c = '<' || c = '>' || c = '.' || c = '|' || c = '@'

/-- Schema::Lexer::next: skip whitespace, then emit a symbol, identifier,
number or single-character token.  none models the eof token.  The hex branch
reproduces the source exactly: after 0x the next character is taken
unconditionally before the hex-digit run continues. -/
def nextTok (l : List Char) : Option (List Char) × List Char :=
  let l1 := l.dropWhile isSpaceC
  match l1 with
  | [] => (none, [])
  | c :: t =>
    if lexIsSym c then (some [c], t)
    else if isAlphaC c || c = '_' then
      let run := t.takeWhile isIdentC
      (some (c :: run), t.drop run.length)
    else if isDigitC c || c = '+' || c = '-' then
      match t with
      | x :: t2 =>
        if c = '0' ∧ (x = 'x' ∨ x = 'X') then
          match t2 with
          | [] => (some [c, x], [])
          | c3 :: t3 =>
            let run := t3.takeWhile isXdigitC
            (some (c :: x :: c3 :: run), t3.drop run.length)
        else
          let run := t.takeWhile isDigitC
          (some (c :: run), t.drop run.length)
      | [] => (some [c], [])
    else (some [c], t)

/-- Schema::Lexer::peek: look at the next token without consuming it. -/
def lexPeek (l : List Char) : Option (List Char) := (nextTok l).1

/-- Token::is_ident. -/
def tok_is_ident (t : List Char) : Bool :=
  match t with
  | [] => false
  | c :: rest => (isAlphaC c || c = '_') && rest.all isIdentC

/-- Token::is_number. -/
def tok_is_number (t : List Char) : Bool :=
  let body := match t with
    | c :: rest => if c = '+' || c = '-' then rest else t
    | [] => t
  match body with
  | [] => false
  | [c0] => isDigitC c0
  | c0 :: c1 :: ds =>
    if c0 = '0' && (c1 = 'x' || c1 = 'X') then !ds.isEmpty && ds.all isXdigitC
    else (c0 :: c1 :: ds).all isDigitC

/-- std::stoull with base 10 on a token: longest digit prefix after an
optional sign; a negative value wraps modulo 2 ^ 64. -/
def stoull_dec (l : List Char) : Nat :=
  match l with
  | '+' :: r => decVal (r.takeWhile isDigitC)
  | '-' :: r => (2 ^ 64 - decVal (r.takeWhile isDigitC) % 2 ^ 64) % 2 ^ 64
  | _ => decVal (l.takeWhile isDigitC)

/-- The enum id parse of Schema::ParseEnum: 0x prefix selects base 16. -/
def parse_enum_id (s : List Char) : Nat :=
  match s with
  | '0' :: x :: d :: rest =>
    if x = 'x' || x = 'X' then hexVal ((d :: rest).takeWhile isXdigitC)
    else stoull_dec s
  | _ => stoull_dec s

/-- std::stoll on an enum item value: optional sign, nonempty digit run;
values outside the int64 range throw, modelled as none. -/
def stollOpt (l : List Char) : Option Int :=
  let l1 := l.dropWhile isSpaceC
  let sgn : Int := if l1.head? = some '-' then -1 else 1
  let body := if l1.head? = some '+' ∨ l1.head? = some '-' then l1.tail else l1
  let ds := body.takeWhile isDigitC
  if ds = [] then none
  else
    let v : Int := sgn * (decVal ds : Int)
    if v < -(2 ^ 63) ∨ 2 ^ 63 - 1 < v then none else some v

/-- Helper loop of schema.cpp SplitTopLevel, carrying the three nesting
counters and the current piece. -/
def splitTopLevelGo : List Char → Char → Int → Int → Int → List Char → List (List Char)
  | [], _, _, _, _, cur => if trimL cur = [] then [] else [trimL cur]
  | ch :: t, delim, a, b, c, cur =>
    let a2 := if ch = '<' then a + 1 else if ch = '>' then a - 1 else a
    let b2 := if ch = '(' then b + 1 else if ch = ')' then b - 1 else b
    let c2 := if ch = lbrace then c + 1 else if ch = rbrace then c - 1 else c
    if ch = delim ∧ a2 = 0 ∧ b2 = 0 ∧ c2 = 0 then
      trimL cur :: splitTopLevelGo t delim a2 b2 c2 []
    else splitTopLevelGo t delim a2 b2 c2 (cur ++ [ch])

/-- schema.cpp SplitTopLevel: split on a delimiter at zero nesting depth;
pieces at delimiters are pushed even when empty, the final piece only when
nonempty after trimming. -/
def SplitTopLevel (s : List Char) (delim : Char) : List (List Char) :=
  splitTopLevelGo s delim 0 0 0 []

/-- The schema state populated by parsing: namespace, messages, enums and
the message declaration order (the fields Schema::parse clears). -/
structure SchemaState where
  ns : List Char
  messages : List (List Char × Msg)
  enums : List (List Char × EnumDecl)
  messageOrder : List (List Char)
deriving DecidableEq, Repr

/-- Schema::ReadBracedBlock's loop; fuel bounds the iteration count by the
remaining input length (each iteration consumes at least one character). -/
def readBracedGo : Nat → List Char → Int → List Char → Except String (List Char × List Char)
  | 0, _, _, _ => .error "fuel exhausted"
  | fuel + 1, input, depth, buf =>
    match nextTok input with
    | (none, _) => .error "unexpected EOF inside braces"
    | (some t, rest) =>
      if t = [lbrace] then readBracedGo fuel rest (depth + 1) (buf ++ [lbrace])
      else if t = [rbrace] then
        if depth = 1 then .ok (buf, rest)
        else readBracedGo fuel rest (depth - 1) (buf ++ [rbrace])
      else readBracedGo fuel rest depth (buf ++ t ++ [' '])

/-- Schema::ReadBracedBlock: expect an opening brace, then collect token
texts separated by spaces until the matching closing brace. -/
def ReadBracedBlock (input : List Char) : Except String (List Char × List Char) :=
  match nextTok input with
  | (some t, rest) =>
    if t = [lbrace] then readBracedGo (rest.length + 1) rest 1 []
    else .error "expected opening brace"
  | (none, _) => .error "expected opening brace"

/-- The dotted-name loop of Schema::ParseNamespace. -/
def parseNamespaceDots : Nat → List Char → List Char → Except String (List Char × List Char)
  | 0, _, _ => .error "fuel exhausted"
  | fuel + 1, input, acc =>
    match lexPeek input with
    | some t =>
      if t = ['.'] then
        let r1 := (nextTok input).2
        match nextTok r1 with
        | (some id, r2) =>
          if tok_is_ident id then parseNamespaceDots fuel r2 (acc ++ '.' :: id)
          else .error "expected identifier after dot"
        | (none, _) => .error "expected identifier after dot"
      else .ok (acc, input)
    | none => .ok (acc, input)

/-- Schema::ParseNamespace. -/
def ParseNamespace (input : List Char) (st : SchemaState) :
    Except String (SchemaState × List Char) :=
  let r0 := (nextTok input).2
  match nextTok r0 with
  | (none, _) => .error "expected identifier after namespace"
  | (some id, r1) =>
    if tok_is_ident id then
      match parseNamespaceDots (r1.length + 1) r1 id with
      | .error e => .error e
      | .ok (nsAcc, r2) =>
        match nextTok r2 with
        | (some semi, r3) =>
          if semi = [';'] then .ok ({st with ns := nsAcc}, r3)
          else .error "expected semicolon after namespace"
        | (none, _) => .error "expected semicolon after namespace"
    else .error "expected identifier after namespace"

/-- The item loop of Schema::ParseEnum: bare names take the counter value and
increment it; a bar item takes its literal value and resets the counter. -/
def enumItemsLoop : Int → List (List Char) → Except String (List EnumValue)
  | _, [] => .ok []
  | next_val, item :: rest =>
    let it := trimL item
    if it = [] then enumItemsLoop next_val rest
    else
      match findCharIdx it '|' with
      | none =>
        match enumItemsLoop (next_val + 1) rest with
        | .error e => .error e
        | .ok vs => .ok (⟨trimL it, next_val⟩ :: vs)
      | some bar =>
        let left := trimL (it.take bar)
        let right := trimL (it.drop (bar + 1))
        if left = [] ∨ right = [] then .error "malformed enum item near bar"
        else
          match stollOpt right with
          | none => .error "enum value must be an integer"
          | some v =>
            match enumItemsLoop (v + 1) rest with
            | .error e => .error e
            | .ok vs => .ok (⟨left, v⟩ :: vs)

/-- The optional explicit id of Schema::ParseEnum, introduced by an at-sign. -/
def parseEnumOptId (r1 : List Char) : Except String (Nat × List Char) :=
  match lexPeek r1 with
  | some t =>
    if t = ['@'] then
      let ra := (nextTok r1).2
      match nextTok ra with
      | (some s, rb) =>
        if tok_is_number s then .ok (parse_enum_id s, rb)
        else .error "expected numeric enum id after at-sign"
      | (none, _) => .error "expected numeric enum id after at-sign"
    else .ok (0, r1)
  | none => .ok (0, r1)

/-- Schema::ParseEnum. -/
def ParseEnum (input : List Char) (st : SchemaState) :
    Except String (SchemaState × List Char) :=
  let r0 := (nextTok input).2
  match nextTok r0 with
  | (none, _) => .error "expected enum name"
  | (some nameTok, r1) =>
    if tok_is_ident nameTok then
      match parseEnumOptId r1 with
      | .error e => .error e
      | .ok (cid, r2) =>
        match ReadBracedBlock r2 with
        | .error e => .error e
        | .ok (body, r3) =>
          match enumItemsLoop 0 (SplitTopLevel body ',') with
          | .error e => .error e
          | .ok vs =>
            let r4 := match lexPeek r3 with
              | some t => if t = [';'] then (nextTok r3).2 else r3
              | none => r3
            .ok ({st with enums := assocInsert st.enums nameTok ⟨nameTok, vs, cid⟩}, r4)
    else .error "expected enum name"

/-- Schema::StartsWithKw. -/
def StartsWithKw (s : List Char) (kw : List Char) : Bool :=
  let s1 := s.dropWhile isSpaceC
  kw.isPrefixOf s1 &&
    (match s1.drop kw.length with
     | [] => true
     | c :: _ => isSpaceC c || c = '<')

/-- Schema::NormalizeFieldLine: trim, and strip a leading enum keyword. -/
def NormalizeFieldLine (line : List Char) : List Char :=
  let l := trimL line
  if l = [] then l
  else if StartsWithKw l ("enum".toList) then
    (l.dropWhile (fun c => !isSpaceC c)).dropWhile isSpaceC
  else l

/-- Schema::AddFieldLine: skip keyword lines, otherwise delegate to the type
parser; a type parse failure aborts the whole parse. -/
def AddFieldLine (m : Msg) (raw : List Char) : Except String Msg :=
  let line := NormalizeFieldLine raw
  if line = [] then .ok m
  else if StartsWithKw line ("message".toList) || StartsWithKw line ("enum".toList)
      || StartsWithKw line ("extends".toList) then .ok m
  else
    match parse_from_line line with
    | none => .error "field line parse error"
    | some f => .ok {m with fields := m.fields ++ [f]}

/-- The per-piece loop of Schema::ParseMessage over semicolon-split lines. -/
def parseMessageBody (m : Msg) : List (List Char) → Except String Msg
  | [] => .ok m
  | p :: rest =>
    if p = [] then parseMessageBody m rest
    else
      match AddFieldLine m (p ++ [';']) with
      | .error e => .error e
      | .ok m2 => parseMessageBody m2 rest

/-- The optional extends clause of Schema::ParseMessage. -/
def parseExtends (r : List Char) : Except String (List Char × List Char) :=
  match lexPeek r with
  | some t =>
    if t = "extends".toList then
      let r5 := (nextTok r).2
      match nextTok r5 with
      | (some b, r6) =>
        if tok_is_ident b then .ok (b, r6)
        else .error "expected base after extends"
      | (none, _) => .error "expected base after extends"
    else .ok ([], r)
  | none => .ok ([], r)

/-- Schema::ParseMessage. -/
def ParseMessage (input : List Char) (st : SchemaState) :
    Except String (SchemaState × List Char) :=
  let r0 := (nextTok input).2
  match nextTok r0 with
  | (none, _) => .error "expected message name"
  | (some nameTok, r1) =>
    if tok_is_ident nameTok then
      match nextTok r1 with
      | (some o, r2) =>
        if o = ['('] then
          match nextTok r2 with
          | (some num, r3) =>
            if tok_is_number num then
              match nextTok r3 with
              | (some cl, r4) =>
                if cl = [')'] then
                  match parseExtends r4 with
                  | .error e => .error e
                  | .ok (parentName, r5) =>
                    match ReadBracedBlock r5 with
                    | .error e => .error e
                    | .ok (body, r6) =>
                      let m0 : Msg :=
                        { id := stoull_dec num, name := nameTok,
                          parent := parentName, fields := [] }
                      match parseMessageBody m0 (SplitTopLevel body ';') with
                      | .error e => .error e
                      | .ok m =>
                        .ok ({st with
                          messages := assocInsert st.messages nameTok m,
                          messageOrder := st.messageOrder ++ [nameTok]}, r6)
                else .error "expected closing parenthesis"
              | (none, _) => .error "expected closing parenthesis"
            else .error "expected numeric message id"
          | (none, _) => .error "expected numeric message id"
        else .error "expected opening parenthesis after message name"
      | (none, _) => .error "expected opening parenthesis after message name"
    else .error "expected message name"

/-- Lowercasing of the first character in Schema::EnsureMessageTypeEnum. -/
def lowerFirst (n : List Char) : List Char :=
  match n with
  | [] => []
  | c :: t => if isUpperC c then toLowerC c :: t else c :: t

/-- The append loop of Schema::EnsureMessageTypeEnum.  The set of existing
names is built once and not updated while appending, exactly as in the code. -/
def mtAppend (existingNames : List (List Char)) (messages : List (List Char × Msg)) :
    List (List Char) → List EnumValue
  | [] => []
  | mname :: rest =>
    if mname ∈ existingNames then mtAppend existingNames messages rest
    else
      match assocLookup messages mname with
      | none => mtAppend existingNames messages rest
      | some msg =>
        let nm := lowerFirst msg.name
        if nm ∈ existingNames then mtAppend existingNames messages rest
        else ⟨nm, (msg.id : Int)⟩ :: mtAppend existingNames messages rest

/-- Schema::EnsureMessageTypeEnum: force the MessageType enum to exist with
id 0, seed undefined = 0 when empty, and append entries for messages in
declaration order. -/
def EnsureMessageTypeEnum (st : SchemaState) : SchemaState :=
  let mt0 : EnumDecl :=
    match assocLookup st.enums ("MessageType".toList) with
    | some e => e
    | none => ⟨[], [], 0⟩
  let mt1 : EnumDecl := { mt0 with name := "MessageType".toList, capnpId := 0 }
  let mt2 : EnumDecl :=
    if mt1.values = [] then { mt1 with values := [⟨"undefined".toList, 0⟩] } else mt1
  let existingNames := mt2.values.map (fun v => v.name)
  let appended := mtAppend existingNames st.messages st.messageOrder
  let mt3 : EnumDecl := { mt2 with values := mt2.values ++ appended }
  { st with enums := assocInsert st.enums ("MessageType".toList) mt3 }

/-- The dispatch loop of Schema::parse. -/
def parseLoop : Nat → List Char → SchemaState → Except String SchemaState
  | 0, _, _ => .error "fuel exhausted"
  | fuel + 1, input, st =>
    match lexPeek input with
    | none => .ok st
    | some t =>
      if t = "namespace".toList then
        match ParseNamespace input st with
        | .error e => .error e
        | .ok (st2, r) => parseLoop fuel r st2
      else if t = "enum".toList then
        match ParseEnum input st with
        | .error e => .error e
        | .ok (st2, r) => parseLoop fuel r st2
      else if t = "message".toList then
        match ParseMessage input st with
        | .error e => .error e
        | .ok (st2, r) => parseLoop fuel r st2
      else .error "expected namespace, enum, or message"

/-- Schema::parse on the given file text: strip comments, clear all prior
state, run the dispatch loop, then synthesize the MessageType enum. -/
def parse_schema (st : SchemaState) (text : List Char) : Except String SchemaState :=
  let stripped := StripComments text
  let st0 : SchemaState :=
    { st with ns := [], messages := [], enums := [], messageOrder := [] }
  match parseLoop (stripped.length + 1) stripped st0 with
  | .error e => .error e
  | .ok st1 => .ok (EnsureMessageTypeEnum st1)

/-- A freshly constructed Schema (all fields empty). -/
def emptySchema : SchemaState := ⟨[], [], [], []⟩

deriving instance DecidableEq for Except

/-! ## Wire-schema struct emission: capnp_file_generator.cpp -/

/-- CapnpFileGenerator::_to_capnp_identifier: whitespace becomes underscore. -/
def to_capnp_identifier (l : List Char) : List Char :=
  l.map (fun c => if isSpaceC c then '_' else c)

/-- CapnpFileGenerator::_is_message_type_field. -/
def is_message_type_field (f : PType) : Bool :=
  (match f.ty with
   | .custom n => n = "MessageType".toList
   | .enumRef n => n = "MessageType".toList
   | _ => false) && f.fieldName = "msgType".toList

/-- CapnpFileGenerator::_flatten_message_fields: parent chain first,
recursively, then own fields; a missing parent is silently skipped.  Fuel
bounds the recursion depth; none means the chain exceeded the fuel (the C++
recursion would not terminate on a parent cycle). -/
def flatten_message_fields : Nat → List (List Char × Msg) → Msg → Option (List PType)
  | 0, _, _ => none
  | fuel + 1, msgs, m =>
    if m.parent = [] then some m.fields
    else
      match assocLookup msgs m.parent with
      | none => some m.fields
      | some pm =>
        match flatten_message_fields fuel msgs pm with
        | none => none
        | some pf => some (pf ++ m.fields)

/-- The field-writing loop of CapnpFileGenerator::_write_struct, including
its special case for a msgType field at ordinal 0 (whose emitted line is the
same as the general case).  Each entry is (identifier, ordinal, capnp type). -/
def write_struct_fields_loop : Nat → List PType → List (List Char × Nat × List Char)
  | _, [] => []
  | k, f :: fs =>
    if k = 0 ∧ is_message_type_field f then
      (to_capnp_identifier f.fieldName, k, get_capnp_type f.ty) :: write_struct_fields_loop (k + 1) fs
    else
      (to_capnp_identifier f.fieldName, k, get_capnp_type f.ty) :: write_struct_fields_loop (k + 1) fs

/-- The field lines of CapnpFileGenerator::_write_struct: flatten, then force
a synthetic msgType line at ordinal 0 unless the first flattened field is
already the msgType : MessageType field. -/
def struct_field_lines (msgs : List (List Char × Msg)) (m : Msg) (fuel : Nat) :
    Option (List (List Char × Nat × List Char)) :=
  match flatten_message_fields fuel msgs m with
  | none => none
  | some flat =>
    let hasFirst := match flat with
      | f :: _ => is_message_type_field f
      | [] => false
    if hasFirst then some (write_struct_fields_loop 0 flat)
    else some (("msgType".toList, 0, "MessageType".toList) :: write_struct_fields_loop 1 flat)

/-- Spec-side renumbering: consecutive ordinals starting at k. -/
def number_fields_from : Nat → List PType → List (List Char × Nat × List Char)
  | _, [] => []
  | k, f :: fs =>
    (to_capnp_identifier f.fieldName, k, get_capnp_type f.ty) :: number_fields_from (k + 1) fs

/-! ## Spec-side definitions for the enum numbering rule -/

/-- Decimal literal of a signed integer. -/
def intLit (v : Int) : List Char :=
  if v < 0 then '-' :: natToDec v.natAbs else natToDec v.natAbs

/-- Render an abstract enum item: NAME, or NAME | VALUE. -/
def renderEnumItem : List Char × Option Int → List Char
  | (nm, none) => nm
  | (nm, some v) => nm ++ " | ".toList ++ intLit v

/-- The counter rule of the specification: a bare name takes the counter and
increments it; an explicit value is taken literally and resets the counter. -/
def enum_values_spec : Int → List (List Char × Option Int) → List EnumValue
  | _, [] => []
  | counter, (nm, none) :: rest => ⟨nm, counter⟩ :: enum_values_spec (counter + 1) rest
  | _, (nm, some v) :: rest => ⟨nm, v⟩ :: enum_values_spec (v + 1) rest

/-- Well-formed abstract enum item: a nonempty name with no leading or
trailing whitespace and no bar character, and an explicit value within the
int64 range. -/
def enumItemWF : List Char × Option Int → Prop
  | (nm, ov) =>
    nm ≠ [] ∧ headNot isSpaceC nm ∧ headNot isSpaceC nm.reverse ∧ '|' ∉ nm ∧
    (match ov with
     | none => True
     | some v => -(2 ^ 63) ≤ v ∧ v ≤ 2 ^ 63 - 1)

/-- The schema text of the C8 idempotence witness. -/
def c8text : List Char :=
  ("namespace a.b;\nmessage Base(1) \x7b int32 a; \x7d\n" ++
   "message Child(2) extends Base \x7b string b; \x7d").toList

/-- The schema state that parsing c8text produces. -/
def c8result : SchemaState :=
  { ns := "a.b".toList,
    messages :=
      [("Base".toList,
        { id := 1, name := "Base".toList, parent := [],
          fields := [⟨.prim .Int32, "a".toList⟩] }),
       ("Child".toList,
        { id := 2, name := "Child".toList, parent := "Base".toList,
          fields := [⟨.prim .String, "b".toList⟩] })],
    enums :=
      [("MessageType".toList,
        { name := "MessageType".toList,
          values := [⟨"undefined".toList, 0⟩, ⟨"base".toList, 1⟩, ⟨"child".toList, 2⟩],
          capnpId := 0 })],
    messageOrder := ["Base".toList, "Child".toList] }

/-- Whether the two-character close-of-block-comment sequence occurs. -/
def hasStarSlash : List Char → Bool
  | '*' :: '/' :: _ => true
  | _ :: t => hasStarSlash t
  | [] => false

/-- A schema state with a user-declared MessageType enum (explicit id 5 and
one declared value), used to witness the MessageType synthesis behavior. -/
def c7st : SchemaState :=
  ⟨[], [],
   [("MessageType".toList, ⟨"MessageType".toList, [⟨"a".toList, 1⟩], 5⟩)], []⟩

/-! ## Theorems -/

theorem shiftRight_and_255 (n k : Nat) : (n >>> k) &&& 255 = n / 2 ^ k % 256 := by
  rw [Nat.shiftRight_eq_div_pow]
  have h : (255 : Nat) = 2 ^ 8 - 1 := by norm_num
  rw [h, Nat.and_pow_two_sub_one_eq_mod]

theorem parent_id_bytes_eq_spec (n : Nat) :
    parent_id_bytes n = big_endian_bytes_spec n := by
  have hr : List.range 8 = [0, 1, 2, 3, 4, 5, 6, 7] := by rfl
  simp only [parent_id_bytes, big_endian_bytes_spec, hr, List.map_cons, List.map_nil,
    shiftRight_and_255]
  norm_num

theorem compute_fnv1a_hash_lt (data : List Nat) : compute_fnv1a_hash data < 2 ^ 64 := by
  have aux : ∀ (l : List Nat) (h : Nat), h < 2 ^ 64 →
      l.foldl (fun h b => ((h ^^^ b) * FNV1A_PRIME) % 2 ^ 64) h < 2 ^ 64 := by
    intro l
    induction l with
    | nil => intro h hh; simpa using hh
    | cons b t ih =>
      intro h _
      exact ih _ (Nat.mod_lt _ (by norm_num))
  exact aux data FNV1A_OFFSET_BASIS (by norm_num [FNV1A_OFFSET_BASIS])

theorem msb_flag_eq : CAPNP_ID_MSB_FLAG = 2 ^ 63 := by norm_num [CAPNP_ID_MSB_FLAG]

theorem takeWhile_append_all {p : Char → Bool} {l : List Char} (r : List Char)
    (h : ∀ a ∈ l, p a = true) :
    (l ++ r).takeWhile p = l ++ r.takeWhile p := by
  induction l with
  | nil => rfl
  | cons c t ih =>
    have hc : p c = true := h c (by simp)
    simp only [List.cons_append, List.takeWhile_cons, hc, if_true]
    rw [ih (fun a ha => h a (by simp [ha]))]

theorem drop_len_append {α : Type} (l r : List α) (n : Nat) (h : l.length = n) :
    (l ++ r).drop n = r := by
  subst h; exact List.drop_left l r

theorem hexDigitC_facts :
    ∀ d, d < 16 → hexDigitVal (hexDigitC d) = d
      ∧ isXdigitC (hexDigitC d) = true
      ∧ (hexDigitC d ≠ '\n')
      ∧ isLowerHexC (hexDigitC d) = true := by decide

theorem nibblesLSB_lt : ∀ (k n : Nat), ∀ d ∈ nibblesLSB k n, d < 16 := by
  intro k
  induction k with
  | zero => intro n d hd; simp [nibblesLSB] at hd
  | succ k ih =>
    intro n d hd
    simp only [nibblesLSB, List.mem_cons] at hd
    rcases hd with h | h
    · subst h; exact Nat.mod_lt _ (by norm_num)
    · exact ih _ d h

theorem nibblesLSB_length : ∀ (k n : Nat), (nibblesLSB k n).length = k := by
  intro k
  induction k with
  | zero => intro n; rfl
  | succ k ih => intro n; simp [nibblesLSB, ih]

theorem valLSB_nibblesLSB : ∀ (k n : Nat), valLSB (nibblesLSB k n) = n % 16 ^ k := by
  intro k
  induction k with
  | zero => intro n; simp [nibblesLSB, valLSB, Nat.mod_one]
  | succ k ih =>
    intro n
    have : valLSB (n % 16 :: nibblesLSB k (n / 16)) = n % 16 + 16 * valLSB (nibblesLSB k (n / 16)) := by
      simp [valLSB]
    rw [nibblesLSB, this, ih]
    rw [pow_succ, mul_comm (16 ^ k) 16, Nat.mod_mul]

theorem hexVal_digits_of_nibbles (ds : List Nat) (h : ∀ d ∈ ds, d < 16) :
    hexVal (ds.reverse.map hexDigitC) = valLSB ds := by
  induction ds with
  | nil => rfl
  | cons d t ih =>
    have hd : d < 16 := h d (by simp)
    have ht : ∀ x ∈ t, x < 16 := fun x hx => h x (by simp [hx])
    simp only [List.reverse_cons, List.map_append, List.map_cons, List.map_nil]
    show hexVal (t.reverse.map hexDigitC ++ [hexDigitC d]) = valLSB (d :: t)
    rw [hexVal, List.foldl_concat]
    have : List.foldl (fun a c => 16 * a + hexDigitVal c) 0 (t.reverse.map hexDigitC)
        = valLSB t := ih ht
    rw [this, (hexDigitC_facts d hd).1]
    simp [valLSB, Nat.mul_comm]
    ring

theorem hexVal_hexDigits16 (x : Nat) (hx : x < 2 ^ 64) : hexVal (hexDigits16 x) = x := by
  rw [hexDigits16, hexVal_digits_of_nibbles _ (nibblesLSB_lt 16 x), valLSB_nibblesLSB]
  have h : (16 : Nat) ^ 16 = 2 ^ 64 := by norm_num
  rw [h]
  exact Nat.mod_eq_of_lt hx

theorem hexDigits16_length (x : Nat) : (hexDigits16 x).length = 16 := by
  simp [hexDigits16, nibblesLSB_length]

theorem hexDigits16_mem (x : Nat) :
    ∀ c ∈ hexDigits16 x, isXdigitC c = true ∧ (c ≠ '\n') ∧ isLowerHexC c = true := by
  intro c hc
  simp only [hexDigits16, List.mem_map, List.mem_reverse] at hc
  obtain ⟨d, hd, rfl⟩ := hc
  have := hexDigitC_facts d (nibblesLSB_lt 16 x d hd)
  exact ⟨this.2.1, this.2.2.1, this.2.2.2⟩

theorem regexIdMatchAt_format (x : Nat) (hx : x < 2 ^ 64) (r : List Char) :
    regexIdMatchAt ('@' :: '0' :: 'x' :: (hexDigits16 x ++ ';' :: r)) = some x := by
  have hall : ∀ a ∈ hexDigits16 x, isXdigitC a = true := fun a ha => (hexDigits16_mem x a ha).1
  have hrun : (hexDigits16 x ++ ';' :: r).takeWhile isXdigitC = hexDigits16 x := by
    rw [takeWhile_append_all _ hall]
    simp [List.takeWhile_cons, isXdigitC, isDigitC]
  have hsemi : isSpaceC ';' = false := by decide
  rw [regexIdMatchAt]
  simp only [hrun, hexDigits16_length]
  norm_num
  rw [drop_len_append _ _ 16 (hexDigits16_length x), List.dropWhile_cons, hsemi]
  simp only [Bool.false_eq_true, if_false]
  rw [hexVal_hexDigits16 x hx]

theorem extract_of_format (x : Nat) (rest : List Char) (hx : x < 2 ^ 64) :
    extract_file_id_from_capnp (some (format_id_as_hex x ++ ';' :: rest)) = x := by
  rw [extract_file_id_from_capnp]
  have hne : ∀ a ∈ format_id_as_hex x, (fun c => decide (c ≠ '\n')) a = true := by
    intro a ha
    rw [format_id_as_hex] at ha
    simp only [List.mem_cons] at ha
    rcases ha with rfl | rfl | rfl | h
    · decide
    · decide
    · decide
    · simpa using (hexDigits16_mem x a h).2.1
  have hline : (format_id_as_hex x ++ ';' :: rest).takeWhile (fun c => decide (c ≠ '\n'))
      = format_id_as_hex x ++ ';' :: rest.takeWhile (fun c => decide (c ≠ '\n')) := by
    rw [takeWhile_append_all _ hne]
    simp [List.takeWhile_cons]
  simp only [hline]
  rw [format_id_as_hex]
  show (match regexIdSearch ('@' :: '0' :: 'x' :: (hexDigits16 x ++ ';' ::
      rest.takeWhile (fun c => decide (c ≠ '\n')))) with
    | some v => v
    | none => 0) = x
  rw [regexIdSearch, regexIdMatchAt_format x hx]

/-- C2.  format_hex renders any 64-bit value as an at-sign, 0x and exactly 16
lowercase hex digits, and extract_root_id applied to a file whose first line
is that text followed by a semicolon recovers the value exactly.
(Code: IdGenerator::format_id_as_hex / IdGenerator::extract_file_id_from_capnp.) -/
theorem claim_C2 (x : Nat) (rest : List Char) (hx : x < 2 ^ 64)
    (htop : Nat.testBit x 63 = true) :
    extract_file_id_from_capnp (some (format_id_as_hex x ++ ';' :: rest)) = x
      ∧ format_id_as_hex x = '@' :: '0' :: 'x' :: hexDigits16 x
      ∧ (hexDigits16 x).length = 16
      ∧ (∀ c ∈ hexDigits16 x, isLowerHexC c = true) :=
  ⟨extract_of_format x rest hx, rfl, hexDigits16_length x,
    fun c hc => (hexDigits16_mem x c hc).2.2⟩

/-- Witness for C2 at a concrete 64-bit value with top bit set. -/
theorem claim_C2_witness :
    extract_file_id_from_capnp
      (some (format_id_as_hex (2 ^ 63 + 2026) ++ ';' :: "\nignored".toList)) = 2 ^ 63 + 2026 :=
  (claim_C2 (2 ^ 63 + 2026) "\nignored".toList (by norm_num) (by decide)).1

/-- C10.  The value 0 is an in-band absent marker: extract_file_id_from_capnp
returns 0 both for a missing file and for a file whose first line encodes the
literal id 0, so _initialize_file_id falls back to a fresh random id in both
cases; and an enum whose declared capnp_id is 0 is treated as having no
explicit id by _write_enum and receives a derived id instead. -/
theorem claim_C10 :
    extract_file_id_from_capnp none = 0
      ∧ (∀ rest, extract_file_id_from_capnp (some (format_id_as_hex 0 ++ ';' :: rest)) = 0)
      ∧ (∀ fresh, initialize_file_id none fresh = fresh)
      ∧ (∀ fresh rest,
          initialize_file_id (some (format_id_as_hex 0 ++ ';' :: rest)) fresh = fresh)
      ∧ (∀ fileId name values,
          write_enum_id fileId ⟨name, values, 0⟩ = derive_id fileId (strBytes name)) := by
  have hzero : ∀ rest : List Char,
      extract_file_id_from_capnp (some (format_id_as_hex 0 ++ ';' :: rest)) = 0 :=
    fun rest => extract_of_format 0 rest (by norm_num)
  refine ⟨rfl, hzero, fun fresh => rfl, ?_, ?_⟩
  · intro fresh rest
    rw [initialize_file_id]
    simp only [hzero rest, ne_eq, not_true_eq_false, reduceIte]
  · intro fileId name values
    rw [write_enum_id]
    simp

theorem findCharIdx_append_cons (mid : List Char) (c : Char) (rest : List Char)
    (h : c ∉ mid) : findCharIdx (mid ++ c :: rest) c = some mid.length := by
  induction mid with
  | nil => simp [findCharIdx]
  | cons a t ih =>
    have hac : a ≠ c := fun hac => h (by simp [hac])
    have ht : c ∉ t := fun hc => h (by simp [hc])
    simp [findCharIdx, hac, ih ht]

theorem markerTail_eq (startM pre mid bodyTail : List Char) (hmid : '\n' ∉ mid) :
    markerTail (pre ++ startM ++ (mid ++ '\n' :: bodyTail)) startM pre.length = bodyTail := by
  rw [markerTail]
  have hdrop : (pre ++ startM ++ (mid ++ '\n' :: bodyTail)).drop (pre.length + startM.length)
      = mid ++ '\n' :: bodyTail := by
    have hassoc : pre ++ startM ++ (mid ++ '\n' :: bodyTail)
        = (pre ++ startM) ++ (mid ++ '\n' :: bodyTail) := by
      rw [List.append_assoc]
    rw [hassoc]
    exact drop_len_append _ _ _ (List.length_append pre startM)
  rw [hdrop, findCharIdx_append_cons mid '\n' bodyTail hmid]
  show (mid ++ '\n' :: bodyTail).drop (mid.length + 1) = bodyTail
  have : mid ++ '\n' :: bodyTail = (mid ++ ['\n']) ++ bodyTail := by simp
  rw [this]
  exact drop_len_append _ _ _ (by simp)

/-- C3.  The merger never errors: a missing file or a missing marker yields
empty slot text; when both markers are present the extracted text is exactly
the verbatim content between the line following the start marker and the end
marker; and the header generator re-emits the extracted slot text verbatim
between the same marker pair in the regenerated output.
(Code: extract_between_markers / CppHeaderGenerator::_read_user_section /
CppHeaderGenerator::_generate_header_content.) -/
theorem claim_C3 :
    (∀ s e, read_user_section none s e = [])
      ∧ (∀ content s e, findSub content s = none → extract_between_markers content s e = [])
      ∧ (∀ content s e p, findSub content s = some p →
          findSub (markerTail content s p) e = none → extract_between_markers content s e = [])
      ∧ (∀ startM endM pre mid body post,
          findSub (pre ++ startM ++ (mid ++ '\n' :: (body ++ endM ++ post))) startM
              = some pre.length →
          '\n' ∉ mid →
          findSub (body ++ endM ++ post) endM = some body.length →
          extract_between_markers (pre ++ startM ++ (mid ++ '\n' :: (body ++ endM ++ post)))
              startM endM = body)
      ∧ (∀ ns m inc meth prot priv, ∃ pre post,
          generate_header_content ns m inc meth prot priv
            = pre ++ (sL "    " ++ USER_METHODS_START ++ sL "\n") ++ meth
                ++ (sL "    " ++ USER_METHODS_END) ++ post) := by
  refine ⟨fun s e => rfl, ?_, ?_, ?_, ?_⟩
  · intro content s e h
    rw [extract_between_markers, h]
  · intro content s e p h1 h2
    rw [extract_between_markers, h1]
    show (match findSub (markerTail content s p) e with
      | none => []
      | some q => (markerTail content s p).take q) = []
    rw [h2]
  · intro startM endM pre mid body post hfind hmid hbody
    rw [extract_between_markers, hfind]
    show (match findSub (markerTail (pre ++ startM ++ (mid ++ '\n' :: (body ++ endM ++ post)))
          startM pre.length) endM with
      | none => []
      | some q => (markerTail (pre ++ startM ++ (mid ++ '\n' :: (body ++ endM ++ post)))
          startM pre.length).take q) = body
    rw [markerTail_eq startM pre mid _ hmid, hbody]
    show (body ++ endM ++ post).take body.length = body
    have h : body ++ endM ++ post = body ++ (endM ++ post) := by simp
    rw [h]
    exact List.take_left body _
  · intro ns m inc meth prot priv
    refine ⟨
      sL "#pragma once\n\n" ++
      sL "#ifndef " ++ (m.name.map toUpperC ++ sL "_HPP") ++ sL "\n" ++
      sL "#define " ++ (m.name.map toUpperC ++ sL "_HPP") ++ sL "\n\n" ++
      sL "#include <cstdint>\n" ++
      sL "#include <string>\n" ++
      sL "#include <vector>\n" ++
      sL "#include <unordered_map>\n" ++
      sL "#include <memory>\n\n" ++
      sL "#include \"message_base.hpp\"\n\n" ++
      sL "// Forward declarations for Cap\x27n Proto\n" ++
      sL "namespace capnp \x7b\n" ++
      sL "    class MessageBuilder;\n" ++
      sL "    class MessageReader;\n" ++
      sL "\x7d\n\n" ++
      USER_INCLUDES_START ++ sL "\n" ++
      inc ++
      USER_INCLUDES_END ++ sL "\n\n" ++
      sL "namespace " ++ (if ns = [] then sL "curious::message" else ns) ++ sL "\n\x7b\n\n" ++
      (if m.parent ≠ [] then
        sL "// Forward declaration\n" ++ sL "class " ++ m.parent ++ sL ";\n\n"
      else []) ++
      sL "/// @brief Auto-generated message class for " ++ m.name ++ sL ".\n" ++
      sL "/// @details Message ID: " ++ natToDec m.id ++ sL "\n" ++
      (if m.parent ≠ [] then
        sL "///          Inherits from: " ++ m.parent ++ sL "\n"
      else []) ++
      sL "class " ++ m.name ++ sL " : public " ++ get_parent_class_name m ++ sL "\n" ++
      sL "\x7b\n" ++
      sL "public:\n" ++
      sL "    // ---- Constructors and Destructor ----\n\n" ++
      sL "    /// @brief Default constructor.\n" ++
      sL "    " ++ m.name ++ sL "();\n\n" ++
      sL "    /// @brief Copy constructor.\n" ++
      sL "    " ++ m.name ++ sL "(const " ++ m.name ++ sL "& other);\n\n" ++
      sL "    /// @brief Move constructor.\n" ++
      sL "    " ++ m.name ++ sL "(" ++ m.name ++ sL "&& other) noexcept;\n\n" ++
      sL "    /// @brief Copy assignment operator.\n" ++
      sL "    " ++ m.name ++ sL "& operator=(const " ++ m.name ++ sL "& other);\n\n" ++
      sL "    /// @brief Move assignment operator.\n" ++
      sL "    " ++ m.name ++ sL "& operator=(" ++ m.name ++ sL "&& other) noexcept;\n\n" ++
      sL "    /// @brief Destructor.\n" ++
      sL "    virtual ~" ++ m.name ++ sL "();\n\n" ++
      sL "    // ---- MessageBase Interface ----\n\n" ++
      sL "    /// @brief Get the message type identifier.\n" ++
      sL "    /// @return The message type ID.\n" ++
      sL "    std::uint64_t get_message_id() const override;\n\n" ++
      sL "    /// @brief Get the message type name.\n" ++
      sL "    /// @return The message type name as a string.\n" ++
      sL "    std::string get_message_name() const override;\n\n" ++
      sL "    /// @brief Serialize this message to a byte vector.\n" ++
      sL "    /// @return A vector containing the serialized message.\n" ++
      sL "    std::vector<std::uint8_t> serialize() const override;\n\n" ++
      sL "    /// @brief Deserialize from a byte vector.\n" ++
      sL "    /// @param data The serialized data.\n" ++
      sL "    /// @return True if deserialization succeeded, false otherwise.\n" ++
      sL "    bool deserialize(const std::vector<std::uint8_t>& data) override;\n\n" ++
      sL "    /// @brief Deserialize from a byte buffer.\n" ++
      sL "    /// @param data Pointer to the data buffer.\n" ++
      sL "    /// @param size Size of the data buffer in bytes.\n" ++
      sL "    /// @return True if deserialization succeeded, false otherwise.\n" ++
      sL "    bool deserialize(const std::uint8_t* data, std::size_t size) override;\n\n" ++
      sL "    // ---- Cap\x27n Proto Conversion Methods ----\n\n" ++
      sL "    /// @brief Convert this object to a Cap\x27n Proto message builder.\n" ++
      sL "    /// @param message_builder The Cap\x27n Proto message builder to populate.\n" ++
      sL "    void to_capnp(::capnp::MessageBuilder& message_builder) const;\n\n" ++
      sL "    /// @brief Populate this object from a Cap\x27n Proto message reader.\n" ++
      sL "    /// @param message_reader The Cap\x27n Proto message reader to read from.\n" ++
      sL "    void from_capnp(::capnp::MessageReader& message_reader);\n\n" ++
      sL "    // ---- Generated Fields ----\n\n" ++
      generate_field_declarations m.fields,
      sL "\n\n" ++
      sL "protected:\n" ++
      sL "    " ++ USER_PROTECTED_START ++ sL "\n" ++
      prot ++
      sL "    " ++ USER_PROTECTED_END ++ sL "\n\n" ++
      sL "private:\n" ++
      sL "    /// @brief Copy fields from another instance.\n" ++
      sL "    /// @param other The instance to copy from.\n" ++
      sL "    void _copy_from(const " ++ m.name ++ sL "& other);\n\n" ++
      sL "    " ++ USER_PRIVATE_START ++ sL "\n" ++
      priv ++
      sL "    " ++ USER_PRIVATE_END ++ sL "\n" ++
      sL "\x7d;\n\n" ++
      sL "\x7d // namespace " ++ (if ns = [] then sL "curious::message" else ns) ++ sL "\n\n" ++
      sL "#endif // " ++ (m.name.map toUpperC ++ sL "_HPP") ++ sL "\n", ?_⟩
    rw [generate_header_content]
    simp only [List.append_assoc]

/-- Witness for C3: on a small artifact the extraction recovers the line
FOO(); verbatim from between the marker pair. -/
theorem claim_C3_witness :
    extract_between_markers
      ("intro ".toList ++ USER_METHODS_START ++
        ([] ++ '\n' :: ("FOO();\n".toList ++ USER_METHODS_END ++ "\nrest".toList)))
      USER_METHODS_START USER_METHODS_END = "FOO();\n".toList :=
  claim_C3.2.2.2.1 USER_METHODS_START USER_METHODS_END "intro ".toList []
    "FOO();\n".toList "\nrest".toList (by decide) (by decide) (by decide)

theorem identC_not_space (c : Char) (h : isIdentC c = true) : isSpaceC c = false := by
  rw [isIdentC, isAlnumC, isAlphaC, isDigitC] at h
  rw [isSpaceC]
  simp only [Bool.or_eq_true, decide_eq_true_eq] at h
  simp only [decide_eq_false_iff_not]
  omega

theorem dropWhile_eq_self_of_headNot {p : Char → Bool} {l : List Char}
    (h : headNot p l) : l.dropWhile p = l := by
  cases l with
  | nil => rfl
  | cons c t =>
    rw [headNot] at h
    simp [List.dropWhile_cons, h]

theorem dropWhile_idem (p : Char → Bool) (l : List Char) :
    (l.dropWhile p).dropWhile p = l.dropWhile p := by
  induction l with
  | nil => rfl
  | cons c t ih =>
    by_cases h : p c = true
    · simp [List.dropWhile_cons, h, ih]
    · rw [Bool.not_eq_true] at h
      simp [List.dropWhile_cons, h]

theorem takeWhile_stop {p : Char → Bool} {l r : List Char}
    (hall : ∀ a ∈ l, p a = true) (hr : headNot p r) :
    (l ++ r).takeWhile p = l := by
  rw [takeWhile_append_all r hall]
  cases r with
  | nil => simp
  | cons c t =>
    rw [headNot] at hr
    simp [List.takeWhile_cons, hr]

theorem readIdent_spec (id rest : List Char) (hid : validIdentL id)
    (hrest : headNot isIdentC rest) :
    readIdent (id ++ rest) = some (id, rest.dropWhile isSpaceC) := by
  obtain ⟨hne, hall⟩ := hid
  obtain ⟨c, t, rfl⟩ : ∃ c t, id = c :: t := by
    cases id with
    | nil => exact absurd rfl hne
    | cons c t => exact ⟨c, t, rfl⟩
  have hc : isIdentC c = true := hall c (by simp)
  have hnspace : isSpaceC c = false := identC_not_space c hc
  rw [readIdent]
  have h1 : ((c :: t) ++ rest).dropWhile isSpaceC = (c :: t) ++ rest := by
    simp [List.dropWhile_cons, hnspace]
  have h2 : ((c :: t) ++ rest).takeWhile isIdentC = c :: t := takeWhile_stop hall hrest
  simp only [h1, h2]
  have h3 : ((c :: t) ++ rest).drop (c :: t).length = rest := List.drop_left _ _
  simp only [h3, List.cons_ne_nil, if_false, reduceIte]

theorem parseTypeF_bare (id : List Char) (hid : validIdentL id)
    (hlist : is_list_keyword (lowerL id) = false)
    (hmap : is_map_keyword (lowerL id) = false)
    (f : Nat) (rest : List Char) (hrest : headNot isIdentC rest) :
    parseTypeF (f + 1) (id ++ rest) = some (resolve_bare id, rest.dropWhile isSpaceC) := by
  rw [parseTypeF, readIdent_spec id rest hid hrest]
  simp only [hlist, hmap, Bool.false_eq_true, if_false, reduceIte]

theorem primKeyword_props : ∀ (p : DslType) (kw : List Char), primKeyword p = some kw →
    validIdentL kw ∧ is_list_keyword (lowerL kw) = false
      ∧ is_map_keyword (lowerL kw) = false ∧ resolve_bare kw = .prim p := by
  intro p kw h
  cases p <;> simp only [primKeyword, Option.some.injEq, reduceCtorEq] at h <;>
    subst h <;> exact ⟨by decide, by decide, by decide, by decide⟩

theorem parseTypeF_render :
    ∀ (t : CType), validTy t → ∀ fuel, depthTy t ≤ fuel →
      ∀ rest, headNot isIdentC rest →
    ∃ r', parseTypeF fuel (renderTy t ++ rest) = some (t, r')
      ∧ r'.dropWhile isSpaceC = rest.dropWhile isSpaceC := by
  intro t
  induction t with
  | prim p =>
    intro ht fuel hfuel rest hrest
    cases fuel with
    | zero => rw [depthTy] at hfuel; omega
    | succ f =>
      obtain ⟨kw, hkw⟩ : ∃ kw, primKeyword p = some kw := Option.isSome_iff_exists.mp ht
      obtain ⟨hv, hl, hm, hres⟩ := primKeyword_props p kw hkw
      have hrender : renderTy (.prim p) = kw := by rw [renderTy, hkw]; rfl
      refine ⟨rest.dropWhile isSpaceC, ?_, dropWhile_idem _ _⟩
      rw [hrender, parseTypeF_bare kw hv hl hm f rest hrest, hres]
  | custom n =>
    intro ht fuel hfuel rest hrest
    cases fuel with
    | zero => rw [depthTy] at hfuel; omega
    | succ f =>
      obtain ⟨hv, hexact, hlower, hl, hm⟩ := ht
      refine ⟨rest.dropWhile isSpaceC, ?_, dropWhile_idem _ _⟩
      rw [show renderTy (.custom n) = n from rfl, parseTypeF_bare n hv hl hm f rest hrest]
      simp only [resolve_bare, hexact, hlower]
  | enumRef n =>
    intro ht
    exact ht.elim
  | listOf t' ih =>
    intro ht fuel hfuel rest hrest
    cases fuel with
    | zero => rw [depthTy] at hfuel; omega
    | succ f =>
      have hdepth' : depthTy t' ≤ f := by rw [depthTy] at hfuel; omega
      obtain ⟨r2, hp2, hd2⟩ := ih ht f hdepth' ('>' :: rest)
        (by exact (by decide : isIdentC '>' = false))
      have hshape : renderTy (.listOf t') ++ rest
          = "list".toList ++ ('<' :: (renderTy t' ++ ('>' :: rest))) := by
        rw [renderTy]; simp
      have hr2 : r2.dropWhile isSpaceC = '>' :: rest := by
        rw [hd2]
        exact dropWhile_eq_self_of_headNot (by exact (by decide : isSpaceC '>' = false))
      refine ⟨rest, ?_, rfl⟩
      rw [hshape, parseTypeF,
        readIdent_spec ("list".toList) _ (by decide)
          (by exact (by decide : isIdentC '<' = false))]
      have hdw : ('<' :: (renderTy t' ++ ('>' :: rest))).dropWhile isSpaceC
          = '<' :: (renderTy t' ++ ('>' :: rest)) :=
        dropWhile_eq_self_of_headNot (by exact (by decide : isSpaceC '<' = false))
      rw [hdw]
      simp only [show lowerL ("list".toList) = "list".toList from by decide,
        show is_list_keyword ("list".toList) = true from by decide, if_true]
      rw [show expectCharP '<' ('<' :: (renderTy t' ++ ('>' :: rest)))
          = some (renderTy t' ++ ('>' :: rest)) from by
        rw [expectCharP, hdw]
        simp]
      show (match parseTypeF f (renderTy t' ++ ('>' :: rest)) with
        | none => none
        | some (elemT, r2) =>
          match expectCharP '>' r2 with
          | none => none
          | some r3 => some (CType.listOf elemT, r3)) = some (CType.listOf t', rest)
      rw [hp2]
      show (match expectCharP '>' r2 with
        | none => none
        | some r3 => some (CType.listOf t', r3)) = some (CType.listOf t', rest)
      rw [show expectCharP '>' r2 = some rest from by rw [expectCharP, hr2]; simp]
  | mapOf tk tv ihk ihv =>
    intro ht fuel hfuel rest hrest
    cases fuel with
    | zero => rw [depthTy] at hfuel; omega
    | succ f =>
      obtain ⟨htk, htv⟩ := ht
      have hdk : depthTy tk ≤ f := by rw [depthTy] at hfuel; omega
      have hdv : depthTy tv ≤ f := by rw [depthTy] at hfuel; omega
      obtain ⟨rk, hpk, hdk2⟩ := ihk htk f hdk (',' :: (renderTy tv ++ ('>' :: rest)))
        (by exact (by decide : isIdentC ',' = false))
      obtain ⟨rv, hpv, hdv2⟩ := ihv htv f hdv ('>' :: rest)
        (by exact (by decide : isIdentC '>' = false))
      have hshape : renderTy (.mapOf tk tv) ++ rest
          = "map".toList ++ ('<' :: (renderTy tk ++ (',' :: (renderTy tv ++ ('>' :: rest))))) := by
        rw [renderTy]; simp
      have hrk : rk.dropWhile isSpaceC = ',' :: (renderTy tv ++ ('>' :: rest)) := by
        rw [hdk2]
        exact dropWhile_eq_self_of_headNot (by exact (by decide : isSpaceC ',' = false))
      have hrv : rv.dropWhile isSpaceC = '>' :: rest := by
        rw [hdv2]
        exact dropWhile_eq_self_of_headNot (by exact (by decide : isSpaceC '>' = false))
      refine ⟨rest, ?_, rfl⟩
      rw [hshape, parseTypeF,
        readIdent_spec ("map".toList) _ (by decide)
          (by exact (by decide : isIdentC '<' = false))]
      have hdw : ('<' :: (renderTy tk ++ (',' :: (renderTy tv ++ ('>' :: rest))))).dropWhile isSpaceC
          = '<' :: (renderTy tk ++ (',' :: (renderTy tv ++ ('>' :: rest)))) :=
        dropWhile_eq_self_of_headNot (by exact (by decide : isSpaceC '<' = false))
      rw [hdw]
      simp only [show lowerL ("map".toList) = "map".toList from by decide,
        show is_list_keyword ("map".toList) = false from by decide,
        show is_map_keyword ("map".toList) = true from by decide,
        Bool.false_eq_true, if_false, if_true, reduceIte]
      rw [show expectCharP '<' ('<' :: (renderTy tk ++ (',' :: (renderTy tv ++ ('>' :: rest)))))
          = some (renderTy tk ++ (',' :: (renderTy tv ++ ('>' :: rest)))) from by
        rw [expectCharP, hdw]
        simp]
      show (match parseTypeF f (renderTy tk ++ (',' :: (renderTy tv ++ ('>' :: rest)))) with
        | none => none
        | some (keyT, r2) =>
          match expectCharP ',' r2 with
          | none => none
          | some r3 =>
            match parseTypeF f r3 with
            | none => none
            | some (valT, r4) =>
              match expectCharP '>' r4 with
              | none => none
              | some r5 => some (CType.mapOf keyT valT, r5)) = some (CType.mapOf tk tv, rest)
      rw [hpk]
      show (match expectCharP ',' rk with
        | none => none
        | some r3 =>
          match parseTypeF f r3 with
          | none => none
          | some (valT, r4) =>
            match expectCharP '>' r4 with
            | none => none
            | some r5 => some (CType.mapOf tk valT, r5)) = some (CType.mapOf tk tv, rest)
      rw [show expectCharP ',' rk = some (renderTy tv ++ ('>' :: rest)) from by
        rw [expectCharP, hrk]
        simp]
      show (match parseTypeF f (renderTy tv ++ ('>' :: rest)) with
        | none => none
        | some (valT, r4) =>
          match expectCharP '>' r4 with
          | none => none
          | some r5 => some (CType.mapOf tk valT, r5)) = some (CType.mapOf tk tv, rest)
      rw [hpv]
      show (match expectCharP '>' rv with
        | none => none
        | some r5 => some (CType.mapOf tk tv, r5)) = some (CType.mapOf tk tv, rest)
      rw [show expectCharP '>' rv = some rest from by rw [expectCharP, hrv]; simp]

theorem depthTy_le_renderTy_length : ∀ t, validTy t → depthTy t ≤ (renderTy t).length := by
  intro t
  induction t with
  | prim p =>
    intro ht
    obtain ⟨kw, hkw⟩ := Option.isSome_iff_exists.mp ht
    have hv := (primKeyword_props p kw hkw).1
    have hpos : 0 < kw.length := List.length_pos.mpr hv.1
    rw [depthTy, renderTy, hkw]
    simpa using hpos
  | custom n =>
    intro ht
    have hpos : 0 < n.length := List.length_pos.mpr ht.1.1
    rw [depthTy, renderTy]
    omega
  | enumRef n => intro ht; exact ht.elim
  | listOf t' ih =>
    intro ht
    have h := ih ht
    rw [depthTy, renderTy]
    simp only [List.length_append, show ("list<".toList).length = 5 from rfl,
      show (">".toList).length = 1 from rfl]
    omega
  | mapOf tk tv ihk ihv =>
    intro ht
    have hk := ihk ht.1
    have hv := ihv ht.2
    rw [depthTy, renderTy]
    simp only [List.length_append, show ("map<".toList).length = 4 from rfl,
      show (",".toList).length = 1 from rfl, show (">".toList).length = 1 from rfl]
    omega

theorem readIdent_congr (l m : List Char) (h : l.dropWhile isSpaceC = m.dropWhile isSpaceC) :
    readIdent l = readIdent m := by
  rw [readIdent, readIdent, h]

theorem fieldTail_dropWhile (fname : List Char) (hf : validIdentL fname) :
    (' ' :: (fname ++ [';'])).dropWhile isSpaceC = fname ++ [';'] := by
  rw [List.dropWhile_cons]
  simp only [show isSpaceC ' ' = true from by decide, if_true]
  obtain ⟨c, t2, rfl⟩ : ∃ c t2, fname = c :: t2 := by
    cases fname with
    | nil => exact absurd rfl hf.1
    | cons c t2 => exact ⟨c, t2, rfl⟩
  exact dropWhile_eq_self_of_headNot (identC_not_space c (hf.2 c (by simp)))

theorem parse_from_line_render (t : CType) (fname : List Char)
    (ht : validTy t) (hf : validIdentL fname) :
    parse_from_line (renderTy t ++ ' ' :: (fname ++ [';'])) = some ⟨t, fname⟩ := by
  have hdepth : depthTy t ≤ (renderTy t ++ ' ' :: (fname ++ [';'])).length + 1 := by
    have h1 := depthTy_le_renderTy_length t ht
    have h2 : (renderTy t).length ≤ (renderTy t ++ ' ' :: (fname ++ [';'])).length := by
      simp [List.length_append]
    omega
  obtain ⟨r', hp, hd⟩ := parseTypeF_render t ht _ hdepth (' ' :: (fname ++ [';']))
    (by exact (by decide : isIdentC ' ' = false))
  rw [parse_from_line, hp]
  show (match readIdent r' with
    | none => none
    | some (nm, _) => some (⟨t, nm⟩ : PType)) = some ⟨t, fname⟩
  have hfield : (fname ++ [';']).dropWhile isSpaceC = fname ++ [';'] := by
    obtain ⟨c0, t0, rfl⟩ : ∃ c0 t0, fname = c0 :: t0 := by
      cases fname with
      | nil => exact absurd rfl hf.1
      | cons c0 t0 => exact ⟨c0, t0, rfl⟩
    exact dropWhile_eq_self_of_headNot (identC_not_space c0 (hf.2 c0 (by simp)))
  have hcongr : readIdent r' = readIdent (fname ++ [';']) :=
    readIdent_congr _ _ (by rw [hd, fieldTail_dropWhile fname hf, hfield])
  rw [hcongr, readIdent_spec fname [';'] hf (by exact (by decide : isIdentC ';' = false))]

theorem parse_from_line_bare (tyId fname : List Char)
    (hty : validIdentL tyId) (hf : validIdentL fname)
    (hl : is_list_keyword (lowerL tyId) = false)
    (hm : is_map_keyword (lowerL tyId) = false) :
    parse_from_line (tyId ++ ' ' :: (fname ++ [';'])) = some ⟨resolve_bare tyId, fname⟩ := by
  have hb := parseTypeF_bare tyId hty hl hm ((tyId ++ ' ' :: (fname ++ [';'])).length)
    (' ' :: (fname ++ [';'])) (by exact (by decide : isIdentC ' ' = false))
  rw [parse_from_line, hb]
  show (match readIdent ((' ' :: (fname ++ [';'])).dropWhile isSpaceC) with
    | none => none
    | some (nm, _) => some (⟨resolve_bare tyId, nm⟩ : PType)) = some ⟨resolve_bare tyId, fname⟩
  have hfield : (fname ++ [';']).dropWhile isSpaceC = fname ++ [';'] := by
    obtain ⟨c0, t0, rfl⟩ : ∃ c0 t0, fname = c0 :: t0 := by
      cases fname with
      | nil => exact absurd rfl hf.1
      | cons c0 t0 => exact ⟨c0, t0, rfl⟩
    exact dropWhile_eq_self_of_headNot (identC_not_space c0 (hf.2 c0 (by simp)))
  have hcongr : readIdent ((' ' :: (fname ++ [';'])).dropWhile isSpaceC)
      = readIdent (fname ++ [';']) :=
    readIdent_congr _ _ (by rw [dropWhile_idem, fieldTail_dropWhile fname hf, hfield])
  rw [hcongr, readIdent_spec fname [';'] hf (by exact (by decide : isIdentC ';' = false))]

/-- C6.  The type parser realises the grammar: a bare identifier resolves by
exact table lookup first, then case-insensitive lookup, then becomes a Custom
reference without error; list and map expressions recurse on their element,
key and value types; and every valid field line round-trips so that kind,
element/key/value structure and the field name all match the grammar, as in
the map(string,int32) example.  (Code: Type::TypeParser::_parse_type and
string_to_dsl_map.) -/
theorem claim_C6 :
    (∀ tyId fname, validIdentL tyId → validIdentL fname →
        is_list_keyword (lowerL tyId) = false → is_map_keyword (lowerL tyId) = false →
        parse_from_line (tyId ++ ' ' :: (fname ++ [';'])) = some ⟨resolve_bare tyId, fname⟩)
      ∧ (∀ t fname, validTy t → validIdentL fname →
          parse_from_line (renderTy t ++ ' ' :: (fname ++ [';'])) = some ⟨t, fname⟩)
      ∧ parse_from_line ("map<string,int32> counts;".toList)
          = some ⟨.mapOf (.prim .String) (.prim .Int32), "counts".toList⟩ :=
  ⟨fun tyId fname hty hf hl hm => parse_from_line_bare tyId fname hty hf hl hm,
   fun t fname ht hf => parse_from_line_render t fname ht hf,
   by decide⟩

/-- Witness for C6: the two quantified parts applied at concrete inputs, a
custom bare identifier and the map(string,int32) type expression. -/
theorem claim_C6_witness :
    parse_from_line ("MyMsg".toList ++ ' ' :: ("x".toList ++ [';']))
        = some ⟨.custom ("MyMsg".toList), "x".toList⟩
      ∧ parse_from_line (renderTy (.mapOf (.prim .String) (.prim .Int32)) ++ ' ' ::
            ("counts".toList ++ [';']))
        = some ⟨.mapOf (.prim .String) (.prim .Int32), "counts".toList⟩ := by
  constructor
  · have h := claim_C6.1 ("MyMsg".toList) ("x".toList)
      (by decide) (by decide) (by decide) (by decide)
    rw [h]
    decide
  · exact claim_C6.2.1 (.mapOf (.prim .String) (.prim .Int32)) ("counts".toList)
      ⟨(by decide : (primKeyword .String).isSome = true),
       (by decide : (primKeyword .Int32).isSome = true)⟩ (by decide)

/-- C1.  derive_id(r, name) is exactly the 64-bit FNV-1a hash of the 8-byte
big-endian encoding of r followed by the bytes of name, with the most
significant bit forced to 1; the result always has its top bit set and fits
in 64 bits.  Determinism is immediate: derive_id is a pure function of its
two arguments.  (Code: IdGenerator::derive_id / IdGenerator::compute_fnv1a_hash.) -/
theorem claim_C1 (r : Nat) (name : List Nat) :
    derive_id r name = (compute_fnv1a_hash (big_endian_bytes_spec r ++ name) ||| 2 ^ 63)
      ∧ Nat.testBit (derive_id r name) 63 = true
      ∧ derive_id r name < 2 ^ 64 := by
  refine ⟨?_, ?_, ?_⟩
  · rw [derive_id, parent_id_bytes_eq_spec, msb_flag_eq]
  · rw [derive_id, msb_flag_eq, Nat.testBit_or, Nat.testBit_two_pow_self, Bool.or_true]
  · rw [derive_id, msb_flag_eq]
    exact Nat.or_lt_two_pow (compute_fnv1a_hash_lt _)
      (Nat.pow_lt_pow_right (by norm_num) (by norm_num))

/-- C8.  Schema::parse first clears all prior state (namespace, messages,
enums, message order), so its result is a function of the input text alone:
parsing on any two prior states gives identical results, and re-parsing the
same text onto the state produced by a first parse reproduces that state
exactly, including every enum value list. -/
theorem claim_C8 :
    (∀ (s1 s2 : SchemaState) (text : List Char),
        parse_schema s1 text = parse_schema s2 text)
      ∧ (∀ (s : SchemaState) (text : List Char) (r : SchemaState),
          parse_schema s text = Except.ok r → parse_schema r text = Except.ok r) := by
  have hind : ∀ (s1 s2 : SchemaState) (text : List Char),
      parse_schema s1 text = parse_schema s2 text := fun s1 s2 text => rfl
  exact ⟨hind, fun s text r h => by rw [hind r s text]; exact h⟩

/-- Witness for C8: re-parsing the Base/Child schema text onto its own parse
result reproduces that result exactly. -/
theorem claim_C8_witness : parse_schema c8result c8text = Except.ok c8result :=
  claim_C8.2 emptySchema c8text c8result (by decide)

theorem assocLookup_assocInsert {α : Type} (l : List (List Char × α)) (k : List Char) (v : α) :
    assocLookup (assocInsert l k v) k = some v := by
  induction l with
  | nil => simp [assocInsert, assocLookup]
  | cons p t ih =>
    obtain ⟨k2, w⟩ := p
    by_cases h : k2 = k
    · simp [assocInsert, assocLookup, h]
    · simp [assocInsert, assocLookup, h, ih]

/-- C7 fails on the code: EnsureMessageTypeEnum forces the MessageType enum
id to 0 unconditionally, so a user-declared MessageType enum with explicit id
5 comes out of parse with capnp id 0, not 5, contradicting the claim that the
id is forced to 0 only when the enum is newly created. -/
theorem claim_C7_counterexample :
    ((parse_schema emptySchema
        ("enum MessageType @0x5 \x7b a | 1 \x7d".toList)).toOption.bind
      (fun st => (assocLookup st.enums ("MessageType".toList)).map
        (fun e => e.capnpId)))
      = some 0
      ∧ (0 : Nat) ≠ 5 := ⟨by decide, by decide⟩

/-- C7 amended.  MessageType synthesis always forces the MessageType enum id
to 0, even when the user declared an explicit id; it seeds undefined = 0 only
when the enum has no values yet; and it never removes or reorders values the
user declared: the declared value list is an unchanged prefix of the final
value list.  (Code: Schema::EnsureMessageTypeEnum.) -/
theorem claim_C7_amended :
    (∀ st : SchemaState, ∃ e,
        assocLookup (EnsureMessageTypeEnum st).enums ("MessageType".toList) = some e
          ∧ e.capnpId = 0 ∧ e.name = "MessageType".toList)
      ∧ (∀ (st : SchemaState) (e0 : EnumDecl),
          assocLookup st.enums ("MessageType".toList) = some e0 → e0.values ≠ [] →
          ∃ e t, assocLookup (EnsureMessageTypeEnum st).enums ("MessageType".toList) = some e
            ∧ e.values = e0.values ++ t)
      ∧ (∀ st : SchemaState,
          assocLookup st.enums ("MessageType".toList) = none →
          ∃ e t, assocLookup (EnsureMessageTypeEnum st).enums ("MessageType".toList) = some e
            ∧ e.values = (⟨"undefined".toList, 0⟩ : EnumValue) :: t) := by
  refine ⟨?_, ?_, ?_⟩
  · intro st
    cases hl : assocLookup st.enums ("MessageType".toList) with
    | none =>
      have hl2 : assocLookup st.enums
          (['M', 'e', 's', 's', 'a', 'g', 'e', 'T', 'y', 'p', 'e'] : List Char) = none := hl
      exact ⟨_, assocLookup_assocInsert _ _ _, by simp [hl2], by simp [hl2]⟩
    | some e0 =>
      have hl2 : assocLookup st.enums
          (['M', 'e', 's', 's', 'a', 'g', 'e', 'T', 'y', 'p', 'e'] : List Char) = some e0 := hl
      by_cases hv : e0.values = []
      · exact ⟨_, assocLookup_assocInsert _ _ _, by simp [hl2, hv], by simp [hl2, hv]⟩
      · exact ⟨_, assocLookup_assocInsert _ _ _, by simp [hl2, hv], by simp [hl2, hv]⟩
  · intro st e0 h0 hne
    have h02 : assocLookup st.enums
        (['M', 'e', 's', 's', 'a', 'g', 'e', 'T', 'y', 'p', 'e'] : List Char) = some e0 := h0
    exact ⟨_, mtAppend (e0.values.map (fun v => v.name)) st.messages st.messageOrder,
      assocLookup_assocInsert _ _ _, by simp [h02, hne]⟩
  · intro st h0
    have h02 : assocLookup st.enums
        (['M', 'e', 's', 's', 'a', 'g', 'e', 'T', 'y', 'p', 'e'] : List Char) = none := h0
    exact ⟨_, mtAppend (["undefined".toList]) st.messages st.messageOrder,
      assocLookup_assocInsert _ _ _, by simp [h02]⟩

/-- Witness for the amended C7: a user-declared MessageType value list stays
an unchanged prefix after synthesis. -/
theorem claim_C7_amended_witness :
    ∃ e t, assocLookup (EnsureMessageTypeEnum c7st).enums ("MessageType".toList) = some e
      ∧ e.values = [(⟨"a".toList, 1⟩ : EnumValue)] ++ t :=
  claim_C7_amended.2.1 c7st ⟨"MessageType".toList, [⟨"a".toList, 1⟩], 5⟩
    (by decide) (by decide)

theorem lineRunGen (step : CommentState → Char → CommentState × List Char)
    (hline : ∀ c, step .LINE c = stripStep .LINE c) :
    ∀ (mid rest : List Char), '\n' ∉ mid →
      runComments step .LINE (mid ++ '\n' :: rest) = '\n' :: runComments step .N rest := by
  intro mid
  induction mid with
  | nil =>
    intro rest _
    show (step .LINE '\n').2 ++ runComments step (step .LINE '\n').1 rest = _
    rw [hline]
    simp [stripStep]
  | cons c t ih =>
    intro rest hmem
    have hc : c ≠ '\n' := fun h => hmem (by simp [h])
    have ht : '\n' ∉ t := fun h => hmem (by simp [h])
    show (step .LINE c).2 ++ runComments step (step .LINE c).1 (t ++ '\n' :: rest) = _
    rw [hline]
    simp only [stripStep, hc, if_false, reduceIte]
    exact ih rest ht

theorem hasStarSlash_tail (c : Char) (t : List Char) (h : hasStarSlash (c :: t) = false) :
    hasStarSlash t = false := by
  cases t with
  | nil => rfl
  | cons d u =>
    by_cases hc : c = '*'
    · by_cases hd : d = '/'
      · subst hc; subst hd; simp [hasStarSlash] at h
      · subst hc
        rw [hasStarSlash] at h
        · exact h
        · intro tail _ he
          injection he with he1 _
          exact hd he1
    · rw [hasStarSlash] at h
      · exact h
      · intro tail hcc _
        exact absurd hcc hc

theorem hasStarSlash_no_head (t : List Char) (u : List Char)
    (h : hasStarSlash ('*' :: t) = false) : t ≠ '/' :: u := by
  intro he
  subst he
  simp [hasStarSlash] at h

theorem blockRun : ∀ (mid rest : List Char) (st : CommentState),
    hasStarSlash mid = false →
    (st = .BLOCK ∨ st = .STAR) →
    (st = .STAR → ∀ u, mid ≠ '/' :: u) →
    runComments stripStep st (mid ++ '*' :: '/' :: rest)
      = runComments stripStep .N rest := by
  intro mid
  induction mid with
  | nil =>
    intro rest st _ hst _
    rcases hst with rfl | rfl
    · show (stripStep .BLOCK '*').2 ++ _ = _
      simp [runComments, stripStep]
    · show (stripStep .STAR '*').2 ++ _ = _
      simp [runComments, stripStep]
  | cons c t ih =>
    intro rest st hss hst hstar
    have htss : hasStarSlash t = false := hasStarSlash_tail c t hss
    rcases hst with rfl | rfl
    · by_cases hc : c = '*'
      · subst hc
        show (stripStep .BLOCK '*').2 ++ runComments stripStep (stripStep .BLOCK '*').1
          (t ++ '*' :: '/' :: rest) = _
        simp only [stripStep, if_true, reduceIte, List.nil_append]
        exact ih rest .STAR htss (Or.inr rfl)
          (fun _ u => hasStarSlash_no_head t u hss)
      · show (stripStep .BLOCK c).2 ++ runComments stripStep (stripStep .BLOCK c).1
          (t ++ '*' :: '/' :: rest) = _
        simp only [stripStep, hc, if_false, reduceIte, List.nil_append]
        exact ih rest .BLOCK htss (Or.inl rfl) (by intro h; cases h)
    · have hcslash : c ≠ '/' := by
        intro h
        exact (hstar rfl t) (by rw [h])
      by_cases hc : c = '*'
      · subst hc
        show (stripStep .STAR '*').2 ++ runComments stripStep (stripStep .STAR '*').1
          (t ++ '*' :: '/' :: rest) = _
        simp only [stripStep, if_true, reduceIte, List.nil_append,
          show ('*' : Char) ≠ '/' from by decide, if_false]
        exact ih rest .STAR htss (Or.inr rfl)
          (fun _ u => hasStarSlash_no_head t u hss)
      · show (stripStep .STAR c).2 ++ runComments stripStep (stripStep .STAR c).1
          (t ++ '*' :: '/' :: rest) = _
        simp only [stripStep, hcslash, hc, if_false, reduceIte, List.nil_append]
        exact ih rest .BLOCK htss (Or.inl rfl) (by intro h; cases h)

/-- C9 fails on the code: the preprocessing step Schema::parse applies
(schema.cpp StripComments) passes a hash-comment line through unchanged, the
hash character becomes the first token seen by the parser, and the parse
aborts on it; only string_utils::strip_comments, which the parse path does
not invoke, strips the hash form. -/
theorem claim_C9_counterexample :
    StripComments ("# secret\nnamespace a;".toList) = "# secret\nnamespace a;".toList
      ∧ lexPeek (StripComments ("# secret\nnamespace a;".toList)) = some ['#']
      ∧ strip_comments_util ("# secret\nnamespace a;".toList) = "\nnamespace a;".toList
      ∧ parse_schema emptySchema ("# secret\nnamespace a;".toList)
          = Except.error "expected namespace, enum, or message" :=
  ⟨by decide, by decide, by decide, by decide⟩

/-- C9 amended.  The preprocessing step applied before lexing strips
double-slash line comments and slash-star block comments, but passes the hash
character through unchanged; the hash-prefixed line comment form is
recognized only by string_utils::strip_comments, which the parse pipeline
does not invoke, so hash-comment text does reach the token stream.
(Code: schema.cpp StripComments / string_utils::strip_comments.) -/
theorem claim_C9_amended :
    (∀ mid rest, '\n' ∉ mid →
        StripComments ('/' :: '/' :: (mid ++ '\n' :: rest))
          = ' ' :: '\n' :: StripComments rest)
      ∧ (∀ mid rest, hasStarSlash mid = false →
          StripComments ('/' :: '*' :: (mid ++ '*' :: '/' :: rest))
            = ' ' :: StripComments rest)
      ∧ (∀ s, StripComments ('#' :: s) = '#' :: StripComments s)
      ∧ (∀ mid rest, '\n' ∉ mid →
          strip_comments_util ('#' :: (mid ++ '\n' :: rest))
            = '\n' :: strip_comments_util rest) := by
  refine ⟨?_, ?_, ?_, ?_⟩
  · intro mid rest hmem
    show (stripStep .N '/').2 ++ runComments stripStep (stripStep .N '/').1
      ('/' :: (mid ++ '\n' :: rest)) = _
    simp only [stripStep, if_true, reduceIte, List.nil_append]
    show (stripStep .SLASH '/').2 ++ runComments stripStep (stripStep .SLASH '/').1
      (mid ++ '\n' :: rest) = _
    simp only [stripStep, if_true, reduceIte]
    rw [lineRunGen stripStep (fun c => rfl) mid rest hmem]
    rfl
  · intro mid rest hss
    show (stripStep .N '/').2 ++ runComments stripStep (stripStep .N '/').1
      ('*' :: (mid ++ '*' :: '/' :: rest)) = _
    simp only [stripStep, if_true, reduceIte, List.nil_append]
    show (stripStep .SLASH '*').2 ++ runComments stripStep (stripStep .SLASH '*').1
      (mid ++ '*' :: '/' :: rest) = _
    simp only [stripStep, show ('*' : Char) ≠ '/' from by decide, if_false, if_true, reduceIte]
    rw [blockRun mid rest .BLOCK hss (Or.inl rfl) (by intro h; cases h)]
    rfl
  · intro s
    show (stripStep .N '#').2 ++ runComments stripStep (stripStep .N '#').1 s = _
    simp [stripStep, StripComments]
  · intro mid rest hmem
    show (stripUtilStep .N '#').2 ++ runComments stripUtilStep (stripUtilStep .N '#').1
      (mid ++ '\n' :: rest) = _
    simp only [stripUtilStep, show ('#' : Char) ≠ '/' from by decide, if_false, if_true,
      reduceIte, List.nil_append]
    exact lineRunGen stripUtilStep (fun c => rfl) mid rest hmem

/-- Witness for the amended C9: the three comment forms at concrete inputs. -/
theorem claim_C9_amended_witness :
    StripComments ('/' :: '/' :: (['x'] ++ '\n' :: ['y'])) = ' ' :: '\n' :: StripComments ['y']
      ∧ StripComments ('/' :: '*' :: (['a', 'b'] ++ '*' :: '/' :: ['y']))
          = ' ' :: StripComments ['y']
      ∧ strip_comments_util ('#' :: (['x'] ++ '\n' :: ['y'])) = '\n' :: strip_comments_util ['y'] :=
  ⟨claim_C9_amended.1 ['x'] ['y'] (by decide),
   claim_C9_amended.2.1 ['a', 'b'] ['y'] (by decide),
   claim_C9_amended.2.2.2 ['x'] ['y'] (by decide)⟩

theorem digitCharFacts :
    ∀ d, d < 10 →
      (Char.ofNat (48 + d)).toNat - 48 = d
        ∧ isDigitC (Char.ofNat (48 + d)) = true
        ∧ isSpaceC (Char.ofNat (48 + d)) = false
        ∧ (Char.ofNat (48 + d)) ≠ '|'
        ∧ (Char.ofNat (48 + d)) ≠ '+'
        ∧ (Char.ofNat (48 + d)) ≠ '-' := by decide

theorem natDecDigits_shape :
    ∀ (fuel n : Nat), ∃ ds d, natDecDigits (fuel + 1) n = ds ++ [Char.ofNat (48 + d)]
      ∧ d < 10
      ∧ (∀ c ∈ ds, ∃ e, e < 10 ∧ c = Char.ofNat (48 + e)) := by
  intro fuel
  induction fuel with
  | zero =>
    intro n
    by_cases h : n < 10
    · exact ⟨[], n, by simp [natDecDigits, h], h, by simp⟩
    · exact ⟨[], n % 10, by simp [natDecDigits, h], Nat.mod_lt _ (by norm_num), by simp⟩
  | succ f ih =>
    intro n
    by_cases h : n < 10
    · exact ⟨[], n, by simp [natDecDigits, h], h, by simp⟩
    · obtain ⟨ds, d, heq, hd, hall⟩ := ih (n / 10)
      refine ⟨natDecDigits (f + 1) (n / 10), n % 10, by simp [natDecDigits, h],
        Nat.mod_lt _ (by norm_num), ?_⟩
      intro c hc
      rw [heq] at hc
      rcases List.mem_append.mp hc with hin | hin
      · exact hall c hin
      · exact ⟨d, hd, by simpa using hin⟩

theorem natDecDigits_all :
    ∀ (fuel n : Nat), ∀ c ∈ natDecDigits (fuel + 1) n, ∃ e, e < 10 ∧ c = Char.ofNat (48 + e) := by
  intro fuel n c hc
  obtain ⟨ds, d, heq, hd, hall⟩ := natDecDigits_shape fuel n
  rw [heq] at hc
  rcases List.mem_append.mp hc with hin | hin
  · exact hall c hin
  · exact ⟨d, hd, by simpa using hin⟩

theorem natDecDigits_val :
    ∀ (fuel n : Nat), n < 10 ^ fuel → decVal (natDecDigits fuel n) = n := by
  intro fuel
  induction fuel with
  | zero =>
    intro n h
    interval_cases n
    rfl
  | succ f ih =>
    intro n h
    by_cases hlt : n < 10
    · have : decVal [Char.ofNat (48 + n)] = (Char.ofNat (48 + n)).toNat - 48 := by
        simp [decVal]
      rw [natDecDigits, if_pos hlt, this, (digitCharFacts n hlt).1]
    · rw [natDecDigits, if_neg hlt]
      rw [decVal, List.foldl_concat]
      have hdiv : n / 10 < 10 ^ f := by
        apply Nat.div_lt_of_lt_mul
        rw [pow_succ] at h
        omega
      have := ih (n / 10) hdiv
      rw [decVal] at this
      rw [this, (digitCharFacts (n % 10) (Nat.mod_lt _ (by norm_num))).1]
      omega

theorem natToDec_facts (n : Nat) :
    natToDec n ≠ []
      ∧ (∀ c ∈ natToDec n,
          isDigitC c = true ∧ isSpaceC c = false ∧ c ≠ '|' ∧ c ≠ '+' ∧ c ≠ '-')
      ∧ headNot isSpaceC (natToDec n)
      ∧ headNot isSpaceC (natToDec n).reverse
      ∧ decVal (natToDec n) = n := by
  have hall : ∀ c ∈ natToDec n,
      isDigitC c = true ∧ isSpaceC c = false ∧ c ≠ '|' ∧ c ≠ '+' ∧ c ≠ '-' := by
    intro c hc
    obtain ⟨e, he, rfl⟩ := natDecDigits_all n n c hc
    have := digitCharFacts e he
    exact ⟨this.2.1, this.2.2.1, this.2.2.2.1, this.2.2.2.2.1, this.2.2.2.2.2⟩
  obtain ⟨ds, d, heq, hd, _⟩ := natDecDigits_shape n n
  have hne : natToDec n ≠ [] := by
    rw [natToDec, heq]
    simp
  refine ⟨hne, hall, ?_, ?_, ?_⟩
  · cases hcase : natToDec n with
    | nil => exact trivial
    | cons c t =>
      show isSpaceC c = false
      exact (hall c (by rw [hcase]; simp)).2.1
  · rw [natToDec, heq, List.reverse_append]
    show isSpaceC (Char.ofNat (48 + d)) = false
    exact (digitCharFacts d hd).2.2.1
  · exact natDecDigits_val (n + 1) n
      (lt_of_lt_of_le (Nat.lt_pow_self (by norm_num) n)
        (Nat.pow_le_pow_right (by norm_num) (Nat.le_succ n)))

theorem trimL_eq_self (l : List Char) (h1 : headNot isSpaceC l)
    (h2 : headNot isSpaceC l.reverse) : trimL l = l := by
  rw [trimL, dropWhile_eq_self_of_headNot h1, dropWhile_eq_self_of_headNot h2,
    List.reverse_reverse]

theorem takeWhile_eq_self_of_all {p : Char → Bool} {l : List Char}
    (h : ∀ c ∈ l, p c = true) : l.takeWhile p = l := by
  induction l with
  | nil => rfl
  | cons c t ih =>
    rw [List.takeWhile_cons, h c (by simp)]
    simp [ih (fun c hc => h c (by simp [hc]))]

theorem headNot_append {p : Char → Bool} {a : List Char} (b : List Char)
    (hne : a ≠ []) (h : headNot p a) : headNot p (a ++ b) := by
  cases a with
  | nil => exact absurd rfl hne
  | cons c t => exact h

theorem intLit_facts (v : Int) :
    intLit v ≠ []
      ∧ headNot isSpaceC (intLit v)
      ∧ headNot isSpaceC (intLit v).reverse
      ∧ '|' ∉ intLit v
      ∧ (-(2 ^ 63) ≤ v → v ≤ 2 ^ 63 - 1 → stollOpt (intLit v) = some v) := by
  obtain ⟨hne, hall, hhead, hlast, hval⟩ := natToDec_facts v.natAbs
  have hrevne : (natToDec v.natAbs).reverse ≠ [] := by
    simpa using hne
  have hds : (natToDec v.natAbs).takeWhile isDigitC = natToDec v.natAbs :=
    takeWhile_eq_self_of_all (fun c hc => (hall c hc).1)
  have hvalInt : (decVal (natToDec v.natAbs) : Int) = (v.natAbs : Int) := by
    rw [hval]
  by_cases hneg : v < 0
  · have hlit : intLit v = '-' :: natToDec v.natAbs := by rw [intLit, if_pos hneg]
    have hdw : ('-' :: natToDec v.natAbs).dropWhile isSpaceC = '-' :: natToDec v.natAbs :=
      dropWhile_eq_self_of_headNot (by exact (by decide : isSpaceC '-' = false))
    refine ⟨by simp [hlit], ?_, ?_, ?_, ?_⟩
    · rw [hlit]; exact (by decide : isSpaceC '-' = false)
    · rw [hlit, List.reverse_cons]
      exact headNot_append ['-'] hrevne hlast
    · rw [hlit]
      intro hmem
      rcases List.mem_cons.mp hmem with h | h
      · exact absurd h.symm (by decide)
      · exact (hall '|' h).2.2.1 rfl
    · intro h1 h2
      rw [hlit, stollOpt]
      simp only [hdw, List.head?_cons, List.tail_cons, Option.some.injEq,
        show ('-' = '-') = True from by simp, show ('-' = '+') = False from by decide,
        if_true, or_true, or_false, false_or, hds, if_false, reduceIte]
      rw [if_neg (by simpa using hne)]
      have habs : (v.natAbs : Int) = -v := by omega
      rw [if_neg (by rw [hvalInt, habs]; omega)]
      rw [hvalInt, habs]
      congr 1
      omega
  · have hlit : intLit v = natToDec v.natAbs := by rw [intLit, if_neg hneg]
    obtain ⟨c, t, hct⟩ : ∃ c t, natToDec v.natAbs = c :: t := by
      cases hcase : natToDec v.natAbs with
      | nil => exact absurd hcase hne
      | cons c t => exact ⟨c, t, rfl⟩
    have hcfacts := hall c (by rw [hct]; simp)
    have hdw : (natToDec v.natAbs).dropWhile isSpaceC = natToDec v.natAbs :=
      dropWhile_eq_self_of_headNot hhead
    refine ⟨by rw [hlit]; exact hne, by rw [hlit]; exact hhead,
      by rw [hlit]; exact hlast, ?_, ?_⟩
    · rw [hlit]
      intro hmem
      exact (hall '|' hmem).2.2.1 rfl
    · intro h1 h2
      have hheadq : (natToDec v.natAbs).head? = some c := by rw [hct]; rfl
      rw [hlit, stollOpt]
      simp only [hdw, hheadq, Option.some.injEq]
      rw [if_neg (fun h => hcfacts.2.2.2.2 h),
        if_neg (show ¬(c = '+' ∨ c = '-') from by
          rintro (h | h)
          · exact hcfacts.2.2.2.1 h
          · exact hcfacts.2.2.2.2 h)]
      rw [hds]
      rw [if_neg (show ¬(natToDec v.natAbs = []) from hne)]
      have habs : (v.natAbs : Int) = v := by omega
      rw [if_neg (by rw [one_mul, hvalInt, habs]; omega)]
      rw [one_mul, hvalInt, habs]

theorem findCharIdx_eq_none {l : List Char} {c : Char} (h : c ∉ l) :
    findCharIdx l c = none := by
  induction l with
  | nil => rfl
  | cons a t ih =>
    have hac : a ≠ c := fun hac => h (by simp [hac])
    have ht : c ∉ t := fun hc => h (by simp [hc])
    simp [findCharIdx, hac, ih ht]

theorem findCharIdx_append_left_none {l : List Char} (r : List Char) {c : Char}
    (h : c ∉ l) :
    findCharIdx (l ++ r) c = (findCharIdx r c).map (· + l.length) := by
  induction l with
  | nil => simp
  | cons a t ih =>
    have hac : a ≠ c := fun hac => h (by simp [hac])
    have ht : c ∉ t := fun hc => h (by simp [hc])
    rw [List.cons_append, findCharIdx]
    rw [if_neg hac, ih ht]
    cases findCharIdx r c with
    | none => rfl
    | some j =>
      simp [Option.map_some]
      omega

theorem trim_append_space (nm : List Char) (hne : nm ≠ []) (hh : headNot isSpaceC nm)
    (hr : headNot isSpaceC nm.reverse) : trimL (nm ++ [' ']) = nm := by
  rw [trimL, dropWhile_eq_self_of_headNot (headNot_append [' '] hne hh),
    List.reverse_append]
  show ((' ' :: nm.reverse).dropWhile isSpaceC).reverse = nm
  rw [List.dropWhile_cons]
  simp only [show isSpaceC ' ' = true from by decide, if_true, reduceIte]
  rw [dropWhile_eq_self_of_headNot hr, List.reverse_reverse]

theorem trim_cons_space (l : List Char) (hh : headNot isSpaceC l)
    (hr : headNot isSpaceC l.reverse) : trimL (' ' :: l) = l := by
  rw [trimL, List.dropWhile_cons]
  simp only [show isSpaceC ' ' = true from by decide, if_true, reduceIte]
  rw [dropWhile_eq_self_of_headNot hh, dropWhile_eq_self_of_headNot hr,
    List.reverse_reverse]

theorem enumItemsLoop_spec :
    ∀ (items : List (List Char × Option Int)) (counter : Int),
      (∀ it ∈ items, enumItemWF it) →
      enumItemsLoop counter (items.map renderEnumItem)
        = .ok (enum_values_spec counter items) := by
  intro items
  induction items with
  | nil => intro counter _; rfl
  | cons it rest ih =>
    obtain ⟨nm, ov⟩ := it
    intro counter hwf
    obtain ⟨hne, hh, hr, hbar, hov⟩ := hwf (nm, ov) (by simp)
    have hwfrest : ∀ it ∈ rest, enumItemWF it := fun it hit => hwf it (by simp [hit])
    have htrim : trimL nm = nm := trimL_eq_self nm hh hr
    cases ov with
    | none =>
      rw [List.map_cons]
      show enumItemsLoop counter (renderEnumItem (nm, none) :: rest.map renderEnumItem)
        = Except.ok (enum_values_spec counter ((nm, none) :: rest))
      rw [show renderEnumItem (nm, none) = nm from rfl, enumItemsLoop]
      simp only [htrim]
      rw [if_neg hne, findCharIdx_eq_none hbar, ih (counter + 1) hwfrest]
      rfl
    | some v =>
      obtain ⟨hlne, hlh, hlr, hlbar, hstoll⟩ := intLit_facts v
      have hvr := hstoll hov.1 hov.2
      rw [List.map_cons]
      show enumItemsLoop counter (renderEnumItem (nm, some v) :: rest.map renderEnumItem)
        = Except.ok (enum_values_spec counter ((nm, some v) :: rest))
      have hrender : renderEnumItem (nm, some v)
          = nm ++ (' ' :: '|' :: ' ' :: intLit v) := by
        rw [renderEnumItem]
        simp
      rw [hrender, enumItemsLoop]
      have hitrim : trimL (nm ++ (' ' :: '|' :: ' ' :: intLit v))
          = nm ++ (' ' :: '|' :: ' ' :: intLit v) := by
        apply trimL_eq_self
        · exact headNot_append _ hne hh
        · rw [List.reverse_append]
          show headNot isSpaceC ((' ' :: '|' :: ' ' :: intLit v).reverse ++ nm.reverse)
          have : (' ' :: '|' :: ' ' :: intLit v).reverse
              = (intLit v).reverse ++ [' ', '|', ' '] := by simp
          rw [this, List.append_assoc]
          apply headNot_append
          · simpa using hlne
          · exact hlr
      simp only [hitrim]
      have hitne : nm ++ (' ' :: '|' :: ' ' :: intLit v) ≠ [] := by simp [hne]
      rw [if_neg hitne]
      have hfind : findCharIdx (nm ++ (' ' :: '|' :: ' ' :: intLit v)) '|'
          = some (nm.length + 1) := by
        rw [findCharIdx_append_left_none _ hbar]
        have h1 : findCharIdx (' ' :: '|' :: ' ' :: intLit v) '|' = some 1 := by
          rw [findCharIdx, if_neg (by decide), findCharIdx, if_pos rfl]
          rfl
        rw [h1]
        show some (1 + nm.length) = some (nm.length + 1)
        rw [Nat.add_comm]
      simp only [hfind]
      have htake : (nm ++ (' ' :: '|' :: ' ' :: intLit v)).take (nm.length + 1)
          = nm ++ [' '] := by
        have hsh : nm ++ (' ' :: '|' :: ' ' :: intLit v)
            = (nm ++ [' ']) ++ ('|' :: ' ' :: intLit v) := by simp
        rw [hsh]
        have hlen : (nm ++ [' ']).length = nm.length + 1 := by simp
        rw [← hlen]
        exact List.take_left _ _
      have hdrop : (nm ++ (' ' :: '|' :: ' ' :: intLit v)).drop (nm.length + 1 + 1)
          = ' ' :: intLit v := by
        have hsh : nm ++ (' ' :: '|' :: ' ' :: intLit v)
            = (nm ++ [' ', '|']) ++ (' ' :: intLit v) := by simp
        rw [hsh]
        exact drop_len_append _ _ _ (by simp)
      rw [htake, hdrop, trim_append_space nm hne hh hr,
        trim_cons_space (intLit v) hlh hlr]
      rw [if_neg (show ¬(nm = [] ∨ intLit v = []) from by
        rintro (h | h)
        · exact hne h
        · exact hlne h)]
      rw [hvr]
      show (match enumItemsLoop (v + 1) (List.map renderEnumItem rest) with
        | Except.error e => Except.error e
        | Except.ok vs => Except.ok (({ name := nm, value := v } : EnumValue) :: vs))
        = Except.ok (enum_values_spec counter ((nm, some v) :: rest))
      rw [ih (v + 1) hwfrest]
      rfl

/-- C5.  Enum value numbering follows the counter rule: the counter starts at
0, a bare NAME takes the counter value and increments it, and a NAME | VALUE
item takes VALUE and resets the counter to VALUE + 1; in particular the full
parse of enum E with body A, B | 10, C yields A=0, B=10, C=11.
(Code: Schema::ParseEnum.) -/
theorem claim_C5 :
    (∀ (items : List (List Char × Option Int)) (counter : Int),
        (∀ it ∈ items, enumItemWF it) →
        enumItemsLoop counter (items.map renderEnumItem)
          = .ok (enum_values_spec counter items))
      ∧ ((parse_schema emptySchema ("enum E \x7b A, B | 10, C \x7d".toList)).toOption.bind
          (fun st => (assocLookup st.enums ("E".toList)).map (fun e => e.values)))
        = some [⟨"A".toList, 0⟩, ⟨"B".toList, 10⟩, ⟨"C".toList, 11⟩] :=
  ⟨fun items counter h => enumItemsLoop_spec items counter h, by decide⟩

/-- Witness for C5: the counter rule applied to the A, B | 10, C item list. -/
theorem claim_C5_witness :
    enumItemsLoop 0 ([("A".toList, none), ("B".toList, some 10),
        ("C".toList, none)].map renderEnumItem)
      = .ok [⟨"A".toList, 0⟩, ⟨"B".toList, 10⟩, ⟨"C".toList, 11⟩] := by
  have h := claim_C5.1 [("A".toList, none), ("B".toList, some 10), ("C".toList, none)] 0
    (by
      intro it hit
      simp only [List.mem_cons, List.not_mem_nil, or_false] at hit
      rcases hit with rfl | rfl | rfl
      · exact ⟨by decide, (by decide : isSpaceC 'A' = false),
          (by decide : isSpaceC 'A' = false), by decide, trivial⟩
      · exact ⟨by decide, (by decide : isSpaceC 'B' = false),
          (by decide : isSpaceC 'B' = false), by decide, by norm_num, by norm_num⟩
      · exact ⟨by decide, (by decide : isSpaceC 'C' = false),
          (by decide : isSpaceC 'C' = false), by decide, trivial⟩)
  rw [h]
  rfl

theorem write_loop_eq_number : ∀ (k : Nat) (l : List PType),
    write_struct_fields_loop k l = number_fields_from k l := by
  intro k l
  induction l generalizing k with
  | nil => rfl
  | cons f fs ih =>
    rw [write_struct_fields_loop, number_fields_from]
    split
    · rw [ih]
    · rw [ih]

/-- C4.  The emitted wire-schema struct lists the flattened fields in
inherited-then-own order (parent chain first, recursively) renumbered
consecutively from ordinal 0, with a msgType : MessageType line forced to
ordinal 0 unless the flattened field list already begins with a field
literally named msgType of type MessageType.  Flattening a message whose
parent chain terminates within the given fuel appends its own fields after
the recursively flattened parent fields.
(Code: CapnpFileGenerator::_flatten_message_fields / _write_struct.) -/
theorem claim_C4 :
    (∀ (msgs : List (List Char × Msg)) (m : Msg) (fuel : Nat) (flat : List PType),
        flatten_message_fields fuel msgs m = some flat →
        struct_field_lines msgs m fuel
          = some (if (match flat with
                      | f :: _ => is_message_type_field f
                      | [] => false) = true
                  then number_fields_from 0 flat
                  else ("msgType".toList, 0, "MessageType".toList)
                    :: number_fields_from 1 flat))
      ∧ (∀ (msgs : List (List Char × Msg)) (m pm : Msg) (fuel : Nat) (pflat : List PType),
          m.parent ≠ [] → assocLookup msgs m.parent = some pm →
          flatten_message_fields fuel msgs pm = some pflat →
          flatten_message_fields (fuel + 1) msgs m = some (pflat ++ m.fields))
      ∧ (∀ (k : Nat) (l : List PType),
          (number_fields_from k l).map (fun x => x.2.1) = List.range' k l.length) := by
  refine ⟨?_, ?_, ?_⟩
  · intro msgs m fuel flat hflat
    simp only [struct_field_lines, hflat, write_loop_eq_number]
    cases hb : (match flat with
      | f :: _ => is_message_type_field f
      | [] => false)
    · simp [hb]
    · simp [hb]
  · intro msgs m pm fuel pflat hne hlook hflat
    rw [flatten_message_fields, if_neg hne, hlook]
    show (match flatten_message_fields fuel msgs pm with
      | none => none
      | some pf => some (pf ++ m.fields)) = some (pflat ++ m.fields)
    rw [hflat]
  · intro k l
    induction l generalizing k with
    | nil => rfl
    | cons f fs ih =>
      rw [number_fields_from, List.map_cons, ih]
      rfl

/-- Witness for C4: the Base/Child example.  Child's flattened order is
Base's field a then Child's field b, with msgType inserted at ordinal 0. -/
theorem claim_C4_witness :
    struct_field_lines c8result.messages
        { id := 2, name := "Child".toList, parent := "Base".toList,
          fields := [⟨.prim .String, "b".toList⟩] } 2
      = some [("msgType".toList, 0, "MessageType".toList),
              ("a".toList, 1, "Int32".toList),
              ("b".toList, 2, "Text".toList)] := by
  have h := claim_C4.1 c8result.messages
    { id := 2, name := "Child".toList, parent := "Base".toList,
      fields := [⟨.prim .String, "b".toList⟩] } 2
    [⟨.prim .Int32, "a".toList⟩, ⟨.prim .String, "b".toList⟩] (by decide)
  rw [h]
  decide

end CapnpGen
